import Mathlib

set_option autoImplicit false

/-
Verification of the acme-common reconciliation module.

The development shallowly embeds the two source files of the repository:

* pkg/controller/controller.go — the reconciliation engine (Reconcile,
  setReadyStatus, the Obj interface, the Ready condition and the finalizer
  constants);
* pkg/stack/stack.go — GetStack, the pulumi automation session wrapper.

External collaborators (the kubernetes client, the apimachinery condition
helpers, the pulumi automation API) are modelled at the granularity the
module uses them: every external call is an event in a per-pass trace, and
the outcome of every fallible call is an input of the pass (one field of
Env per call site).  The condition helpers FindStatusCondition and
SetStatusCondition from k8s apimachinery are embedded restricted to the
condition fields this module ever reads or writes (type, status, reason,
message, last transition time); the module never sets ObservedGeneration.
-/

namespace Acme

/-- Condition status values, mirroring metav1.ConditionStatus
    (True, False, Unknown). -/
inductive CondStatus where
  | ctrue
  | cfalse
  | cunknown
deriving DecidableEq, Repr

/-- A status condition: the fields of metav1.Condition that the module
    reads and writes. -/
structure Condition where
  condType : String
  status : CondStatus
  reason : String
  message : String
  lastTransitionTime : Nat
deriving DecidableEq, Repr

/-- The managed object: the parts of a custom resource that Reconcile
    reads and writes through the Obj interface of controller.go
    (client.Object metadata, the conditions slice, the kind specific
    status payload written by SetStatus). -/
structure Obj where
  name : String
  nspace : String
  kind : String
  deletionTimestamp : Option Nat
  finalizers : List String
  conditions : List Condition
  statusPayload : List (String × String)
deriving DecidableEq, Repr

/-- Operation kinds appearing as keys of a preview ChangeSummary
    (apitype.OpType); Reconcile only distinguishes OpSame from the rest. -/
inductive OpKind where
  | same
  | create
  | update
  | delete
  | replace
deriving DecidableEq, Repr

/-- Observable side effects of one reconciliation pass, in call order:
    object store calls (get, status subresource update, generic update) and
    provisioning backend calls (stack resolution, preview, up, destroy).
    A failed call is recorded with flag false. -/
inductive Event where
  | get
  | statusUpdate (o : Obj) (ok : Bool)
  | update (o : Obj) (ok : Bool)
  | stackResolve (ok : Bool)
  | preview (ok : Bool)
  | apply (ok : Bool)
  | teardown (ok : Bool)
deriving DecidableEq, Repr

/-- The pair (ctrl.Result, error) returned by Reconcile: whether the result
    requests an explicit requeue, and whether the returned error is non-nil. -/
structure PassResult where
  requeue : Bool
  err : Bool
deriving DecidableEq, Repr

/-- Outcome of the initial client Get call of a pass. -/
inductive FetchOutcome where
  | notFound
  | fetchErr
  | found (o : Obj)
deriving DecidableEq, Repr

/-- Inputs of one pass: the outcome of the initial fetch, the current time
    used for condition transition stamps, and the outcome of every other
    external call the pass may make (one field per call site in
    controller.go and stack.go). -/
structure Env where
  fetch : FetchOutcome
  now : Nat
  bootstrapPersist : Bool
  stackUpsertOk : Bool
  stackConfigOk : Bool
  addFinUpdate : Bool
  finStartPersist : Bool
  destroyOk : Bool
  finDonePersist : Bool
  removeFinUpdate : Bool
  previewRes : Option (List OpKind)
  reconcilingPersist : Bool
  upRes : Option (List (String × String))
  outputsPersist : Bool
  readyPersist : Bool
deriving DecidableEq, Repr

/-- conditionTypeReady of controller.go. -/
def conditionTypeReady : String := "Ready"

/-- finalizerSuffix of controller.go. -/
def finalizerSuffix : String := ".cloud.acme.local/finalizer"

/-- Embedding of meta.FindStatusCondition of k8s apimachinery: the first
    condition with the given type, if any. -/
def FindStatusCondition (conds : List Condition) (t : String) : Option Condition :=
  conds.find? (fun c => c.condType == t)

/-- Embedding of meta.SetStatusCondition of k8s apimachinery, restricted to
    the fields in Condition: when no condition of the given type exists the
    new condition is appended, its transition time stamped with now when it
    carries a zero time; otherwise the first matching condition is updated in
    place, the transition time refreshed only when the status changed.
    Returns the updated list and whether anything changed. -/
def setStatusCondition : List Condition → Condition → Nat → List Condition × Bool
  | [], nc, now =>
    ([{ nc with lastTransitionTime :=
          if nc.lastTransitionTime = 0 then now else nc.lastTransitionTime }], true)
  | c :: cs, nc, now =>
    if c.condType = nc.condType then
      (⟨c.condType, nc.status, nc.reason, nc.message,
          if c.status ≠ nc.status then
            (if nc.lastTransitionTime ≠ 0 then nc.lastTransitionTime else now)
          else c.lastTransitionTime⟩ :: cs,
       decide (c.status ≠ nc.status ∨ c.reason ≠ nc.reason ∨ c.message ≠ nc.message))
    else
      let r := setStatusCondition cs nc now
      (c :: r.1, r.2)

/-- Embedding of setReadyStatus of controller.go: run SetStatusCondition for
    the Ready condition; when nothing changed return without any store call,
    otherwise persist through the status subresource.  Returns the updated
    object, the store events, and whether an error was returned. -/
def setReadyStatus (status : CondStatus) (reason message : String) (o : Obj)
    (now : Nat) (persistOk : Bool) : Obj × List Event × Bool :=
  let r := setStatusCondition o.conditions
    ⟨conditionTypeReady, status, reason, message, 0⟩ now
  if r.2 then
    let o2 := { o with conditions := r.1 }
    (o2, [Event.statusUpdate o2 persistOk], !persistOk)
  else
    (o, [], false)

/-- The configuration GetStack of stack.go assembles for the pulumi
    automation stack. -/
structure StackConfig where
  stackName : String
  projectName : String
  runtime : String
  backendURL : String
  secretsProvider : String
  stackSecretsProvider : String
  passphraseEnvVar : String × String
  config : List (String × String)
deriving DecidableEq, Repr

/-- Embedding of GetStack of stack.go: the stack name is namespace-name, the
    project name is the kind, backend and secrets handling are fixed, and
    after upserting the stack exactly one config value (aws:region) is set.
    The two booleans are the outcomes of the two fallible backend calls
    (UpsertStackInlineSource and SetConfig); either failure yields an error. -/
def GetStack (kind name nspace : String) (upsertOk setConfigOk : Bool) :
    Option StackConfig :=
  if upsertOk then
    if setConfigOk then
      some { stackName := nspace ++ "-" ++ name,
             projectName := kind,
             runtime := "go",
             backendURL := "s3://acme-cloud-backend",
             secretsProvider := "passphrase",
             stackSecretsProvider := "passphrase",
             passphraseEnvVar := ("PULUMI_CONFIG_PASSPHRASE", "password"),
             config := [("aws:region", "us-west-2")] }
    else none
  else none

/-- strings.ToLower as applied by Reconcile to the object kind: lower-case
    every character of the string. -/
def toLowerStr (s : String) : String := ⟨s.data.map Char.toLower⟩

/-- Step 2 of Reconcile (controller.go lines 63-69): when the object has an
    empty conditions slice, bootstrap the Ready condition to
    False/Reconciling and persist. -/
def bootstrapStep (env : Env) (o : Obj) : Obj × List Event × Bool :=
  if o.conditions.isEmpty then
    setReadyStatus .cfalse "Reconciling" "Starting reconciliation" o
      env.now env.bootstrapPersist
  else
    (o, [], false)

/-- The finalizer-adding step of the active branch (controller.go lines
    85-95): when the finalizer is absent, append it
    (controllerutil.AddFinalizer) and persist the object with a generic
    update. -/
def addFinalizerStep (env : Env) (o : Obj) (fin : String) : Obj × List Event × Bool :=
  if fin ∈ o.finalizers then
    (o, [], false)
  else
    ({ o with finalizers := o.finalizers ++ [fin] },
     [Event.update { o with finalizers := o.finalizers ++ [fin] } env.addFinUpdate],
     !env.addFinUpdate)

/-- The tail of the active branch after a successful up call decision point
    (controller.go lines 160-182): run up; on success write the outputs into
    the status and persist them, then mark Ready True/Created.  Every failure
    returns a non-nil error. -/
def publishPhase (env : Env) (o2 : Obj) : PassResult × List Event × Obj :=
  match env.upRes with
  | none => (⟨false, true⟩, [Event.apply false], o2)
  | some outs =>
    if env.outputsPersist then
      let u := setReadyStatus .ctrue "Created" "The Object was successfully created"
        { o2 with statusPayload := outs } env.now env.readyPersist
      (⟨false, u.2.2⟩,
       [Event.apply true, Event.statusUpdate { o2 with statusPayload := outs } true]
         ++ u.2.1,
       u.1)
    else
      (⟨false, true⟩,
       [Event.apply true, Event.statusUpdate { o2 with statusPayload := outs } false],
       { o2 with statusPayload := outs })

/-- The active branch tail once the preview reported a change (controller.go
    lines 153-182): mark Reconciling and continue with the up call. -/
def changedPhase (env : Env) (oF : Obj) : PassResult × List Event × Obj :=
  let t := setReadyStatus .cfalse "Reconciling" "Starting reconciliation"
    oF env.now env.reconcilingPersist
  if t.2.2 then (⟨false, true⟩, t.2.1, t.1)
  else
    let w := publishPhase env t.1
    (w.1, t.2.1 ++ w.2.1, w.2.2)

/-- The drift check of the active branch (controller.go lines 135-158): run
    preview; on failure return the error; when every operation kind of the
    change summary is OpSame stop with no error, otherwise continue. -/
def previewPhase (env : Env) (oF : Obj) : PassResult × List Event × Obj :=
  match env.previewRes with
  | none => (⟨false, true⟩, [Event.preview false], oF)
  | some ops =>
    if ops.any (fun op => op != OpKind.same) then
      let w := changedPhase env oF
      (w.1, [Event.preview true] ++ w.2.1, w.2.2)
    else
      (⟨false, false⟩, [Event.preview true], oF)

/-- The active branch of Reconcile (controller.go lines 85-95 and 135-182):
    ensure the finalizer is present and persisted, then run the drift check
    and the apply pipeline. -/
def reconcileActive (env : Env) (o : Obj) (fin : String) :
    PassResult × List Event × Obj :=
  let s := addFinalizerStep env o fin
  if s.2.2 then (⟨false, true⟩, s.2.1, s.1)
  else
    let w := previewPhase env s.1
    (w.1, s.2.1 ++ w.2.1, w.2.2)

/-- The deletion branch tail after the Finalizing status write succeeded
    (controller.go lines 107-130): destroy the stack (a destroy failure is
    logged and returns a nil error), mark Finalizing again, remove the
    finalizer (controllerutil.RemoveFinalizer; when it reports failure an
    explicit requeue with nil error is returned) and persist the removal. -/
def teardownPhase (env : Env) (o1 : Obj) (fin : String) :
    PassResult × List Event × Obj :=
  if env.destroyOk then
    let t := setReadyStatus .cfalse "Finalizing"
      ("Finalizer operations for custom resource " ++ o1.name
        ++ " name were successfully accomplished")
      o1 env.now env.finDonePersist
    if t.2.2 then
      (⟨false, true⟩, [Event.teardown true] ++ t.2.1, t.1)
    else if fin ∈ t.1.finalizers then
      (⟨false, !env.removeFinUpdate⟩,
       [Event.teardown true] ++ t.2.1
         ++ [Event.update { t.1 with finalizers := t.1.finalizers.filter (fun f => f != fin) } env.removeFinUpdate],
       { t.1 with finalizers := t.1.finalizers.filter (fun f => f != fin) })
    else
      (⟨true, false⟩, [Event.teardown true] ++ t.2.1, t.1)
  else
    (⟨false, false⟩, [Event.teardown false], o1)

/-- The deletion branch of Reconcile (controller.go lines 96-133): when the
    finalizer is present, mark Finalizing and run the teardown sequence;
    without the finalizer the branch is a no-op. -/
def reconcileDeletion (env : Env) (o : Obj) (fin : String) :
    PassResult × List Event × Obj :=
  if fin ∈ o.finalizers then
    let s := setReadyStatus .cfalse "Finalizing"
      ("Performing finalizer operations for the custom resource: " ++ o.name)
      o env.now env.finStartPersist
    if s.2.2 then (⟨false, true⟩, s.2.1, s.1)
    else
      let w := teardownPhase env s.1 fin
      (w.1, s.2.1 ++ w.2.1, w.2.2)
  else
    (⟨false, false⟩, [], o)

/-- Embedding of Reconcile of controller.go: fetch the object (NotFound ends
    the pass cleanly, any other fetch error is returned), bootstrap the Ready
    condition when the conditions slice is empty, resolve the stack (a
    resolution failure is logged and returns a nil error), then branch on the
    deletion timestamp into the active or the deletion path.  The result is
    the returned (ctrl.Result, error) pair, the trace of external calls, and
    the final in-memory object when one was fetched. -/
def Reconcile (env : Env) : PassResult × List Event × Option Obj :=
  match env.fetch with
  | .notFound => (⟨false, false⟩, [Event.get], none)
  | .fetchErr => (⟨false, true⟩, [Event.get], none)
  | .found o0 =>
    let s1 := bootstrapStep env o0
    if s1.2.2 then (⟨false, true⟩, Event.get :: s1.2.1, some s1.1)
    else
      match GetStack (toLowerStr s1.1.kind) s1.1.name s1.1.nspace
          env.stackUpsertOk env.stackConfigOk with
      | none =>
        (⟨false, false⟩, Event.get :: s1.2.1 ++ [Event.stackResolve false], some s1.1)
      | some _ =>
        let r :=
          if s1.1.deletionTimestamp.isNone then
            reconcileActive env s1.1 (toLowerStr s1.1.kind ++ finalizerSuffix)
          else
            reconcileDeletion env s1.1 (toLowerStr s1.1.kind ++ finalizerSuffix)
        (r.1, Event.get :: s1.2.1 ++ [Event.stackResolve true] ++ r.2.1, some r.2.2)

/-- Is the event a status subresource persist attempt. -/
def isStatusUpdate : Event → Bool
  | .statusUpdate _ _ => true
  | _ => false

/-- Is the event the initial object fetch. -/
def isGet : Event → Bool
  | .get => true
  | _ => false

/-- Is the event a call to the up operation of the session. -/
def isApply : Event → Bool
  | .apply _ => true
  | _ => false

/-- Number of status subresource persist attempts in a trace. -/
def countStatusUpdates (tr : List Event) : Nat :=
  (tr.filter isStatusUpdate).length

/-- The subtrace of generic object updates and apply calls, in order. -/
def updApplyEvents (tr : List Event) : List Event :=
  tr.filter (fun e => match e with
    | .update _ _ => true
    | .apply _ => true
    | _ => false)

/-- The subtrace of generic object updates and teardown calls, in order. -/
def tdUpdEvents (tr : List Event) : List Event :=
  tr.filter (fun e => match e with
    | .update _ _ => true
    | .teardown _ => true
    | _ => false)

/-- Does the current Ready condition of the object already carry the given
    status, reason and message. -/
def readyMatches (o : Obj) (st : CondStatus) (re me : String) : Bool :=
  match FindStatusCondition o.conditions conditionTypeReady with
  | none => false
  | some c => c.status == st && c.reason == re && c.message == me

theorem find_cond_cons_pos (c : Condition) (cs : List Condition) (t : String)
    (h : c.condType = t) : FindStatusCondition (c :: cs) t = some c := by
  unfold FindStatusCondition
  rw [List.find?_cons_of_pos _ (by simp [h])]

theorem find_cond_cons_neg (c : Condition) (cs : List Condition) (t : String)
    (h : c.condType ≠ t) : FindStatusCondition (c :: cs) t = FindStatusCondition cs t := by
  unfold FindStatusCondition
  rw [List.find?_cons_of_neg _ (by simp [h])]

theorem ssc_false_iff (conds : List Condition) (nc : Condition) (now : Nat) :
    (setStatusCondition conds nc now).2 = false ↔
      ∃ c, FindStatusCondition conds nc.condType = some c ∧
        c.status = nc.status ∧ c.reason = nc.reason ∧ c.message = nc.message := by
  induction conds with
  | nil => simp [setStatusCondition, FindStatusCondition]
  | cons c cs ih =>
    by_cases h : c.condType = nc.condType
    · have hs : (setStatusCondition (c :: cs) nc now).2 =
          decide (c.status ≠ nc.status ∨ c.reason ≠ nc.reason ∨ c.message ≠ nc.message) := by
        simp [setStatusCondition, h]
      rw [hs, find_cond_cons_pos c cs nc.condType h]
      simp only [decide_eq_false_iff_not, not_or, not_not]
      constructor
      · rintro ⟨h1, h2, h3⟩
        exact ⟨c, rfl, h1, h2, h3⟩
      · rintro ⟨d, hd, h1, h2, h3⟩
        injection hd with hd
        subst hd
        exact ⟨h1, h2, h3⟩
    · have hs : (setStatusCondition (c :: cs) nc now).2 = (setStatusCondition cs nc now).2 := by
        simp [setStatusCondition, h]
      rw [hs, find_cond_cons_neg c cs nc.condType h]
      exact ih

theorem ssc_find_after (conds : List Condition) (nc : Condition) (now : Nat) :
    ∃ ltt, FindStatusCondition (setStatusCondition conds nc now).1 nc.condType =
      some ⟨nc.condType, nc.status, nc.reason, nc.message, ltt⟩ := by
  induction conds with
  | nil =>
    refine ⟨if nc.lastTransitionTime = 0 then now else nc.lastTransitionTime, ?_⟩
    have hs : (setStatusCondition [] nc now).1 =
        [{ nc with lastTransitionTime :=
            if nc.lastTransitionTime = 0 then now else nc.lastTransitionTime }] := by
      simp [setStatusCondition]
    rw [hs, find_cond_cons_pos { nc with lastTransitionTime :=
      if nc.lastTransitionTime = 0 then now else nc.lastTransitionTime } [] nc.condType rfl]
  | cons c cs ih =>
    by_cases h : c.condType = nc.condType
    · refine ⟨if c.status ≠ nc.status then
          (if nc.lastTransitionTime ≠ 0 then nc.lastTransitionTime else now)
        else c.lastTransitionTime, ?_⟩
      have hs : (setStatusCondition (c :: cs) nc now).1 =
          (⟨c.condType, nc.status, nc.reason, nc.message,
            if c.status ≠ nc.status then
              (if nc.lastTransitionTime ≠ 0 then nc.lastTransitionTime else now)
            else c.lastTransitionTime⟩ : Condition) :: cs := by
        simp [setStatusCondition, h]
      rw [hs, find_cond_cons_pos ⟨c.condType, nc.status, nc.reason, nc.message,
        if c.status ≠ nc.status then
          (if nc.lastTransitionTime ≠ 0 then nc.lastTransitionTime else now)
        else c.lastTransitionTime⟩ cs nc.condType h, h]
    · obtain ⟨ltt, hl⟩ := ih
      refine ⟨ltt, ?_⟩
      have hs : (setStatusCondition (c :: cs) nc now).1 =
          c :: (setStatusCondition cs nc now).1 := by
        simp [setStatusCondition, h]
      rw [hs, find_cond_cons_neg c _ nc.condType h]
      exact hl

theorem srs_noop_of_match (st : CondStatus) (re me : String) (o : Obj)
    (now : Nat) (p : Bool)
    (h : (setStatusCondition o.conditions ⟨conditionTypeReady, st, re, me, 0⟩ now).2 = false) :
    setReadyStatus st re me o now p = (o, [], false) := by
  unfold setReadyStatus
  simp [h]

theorem srs_write_of_change (st : CondStatus) (re me : String) (o : Obj)
    (now : Nat) (p : Bool)
    (h : (setStatusCondition o.conditions ⟨conditionTypeReady, st, re, me, 0⟩ now).2 = true) :
    setReadyStatus st re me o now p =
      ({ o with conditions :=
          (setStatusCondition o.conditions ⟨conditionTypeReady, st, re, me, 0⟩ now).1 },
       [Event.statusUpdate
          { o with conditions :=
              (setStatusCondition o.conditions ⟨conditionTypeReady, st, re, me, 0⟩ now).1 } p],
       !p) := by
  unfold setReadyStatus
  simp [h]

theorem srs_ready_after (st : CondStatus) (re me : String) (o : Obj)
    (now : Nat) (p : Bool) :
    ∃ ltt, FindStatusCondition (setReadyStatus st re me o now p).1.conditions
      conditionTypeReady = some ⟨conditionTypeReady, st, re, me, ltt⟩ := by
  cases h : (setStatusCondition o.conditions ⟨conditionTypeReady, st, re, me, 0⟩ now).2 with
  | false =>
    rw [srs_noop_of_match st re me o now p h]
    obtain ⟨c, hc, h1, h2, h3⟩ := (ssc_false_iff o.conditions _ now).1 h
    have hc' : o.conditions.find? (fun x => x.condType == conditionTypeReady) = some c := hc
    have hty : c.condType = conditionTypeReady := by
      have h4 := List.find?_some hc'
      simpa using h4
    refine ⟨c.lastTransitionTime, ?_⟩
    have hce : c = ⟨conditionTypeReady, st, re, me, c.lastTransitionTime⟩ := by
      cases c
      simp_all
    rw [← hce]
    exact hc
  | true =>
    rw [srs_write_of_change st re me o now p h]
    exact ssc_find_after o.conditions _ now

/-- C5: for every object and target condition, setReadyStatus is a no-op
    returning success when the current Ready condition already has the target
    status, reason and message; otherwise it performs exactly one status
    subresource persist; and an immediately repeated call with the same
    target performs no further persist, so two identical calls make exactly
    one persistence call in total. -/
theorem setReadyStatus_idempotent (st : CondStatus) (re me : String) (o : Obj)
    (n1 n2 : Nat) (p1 p2 : Bool) :
    ((∃ c, FindStatusCondition o.conditions conditionTypeReady = some c ∧
        c.status = st ∧ c.reason = re ∧ c.message = me) →
      setReadyStatus st re me o n1 p1 = (o, [], false)) ∧
    ((¬ ∃ c, FindStatusCondition o.conditions conditionTypeReady = some c ∧
        c.status = st ∧ c.reason = re ∧ c.message = me) →
      countStatusUpdates (setReadyStatus st re me o n1 p1).2.1 = 1) ∧
    setReadyStatus st re me (setReadyStatus st re me o n1 p1).1 n2 p2 =
      ((setReadyStatus st re me o n1 p1).1, [], false) := by
  refine ⟨?_, ?_, ?_⟩
  · intro hex
    exact srs_noop_of_match st re me o n1 p1 ((ssc_false_iff o.conditions _ n1).2 hex)
  · intro hnex
    have h : (setStatusCondition o.conditions ⟨conditionTypeReady, st, re, me, 0⟩ n1).2 = true := by
      cases hb : (setStatusCondition o.conditions ⟨conditionTypeReady, st, re, me, 0⟩ n1).2 with
      | false => exact absurd ((ssc_false_iff o.conditions _ n1).1 hb) hnex
      | true => rfl
    rw [srs_write_of_change st re me o n1 p1 h]
    simp [countStatusUpdates, isStatusUpdate]
  · obtain ⟨ltt, h⟩ := srs_ready_after st re me o n1 p1
    exact srs_noop_of_match st re me _ n2 p2
      ((ssc_false_iff _ _ n2).2 ⟨_, h, rfl, rfl, rfl⟩)

theorem setReadyStatus_idempotent_witness :
    (setReadyStatus .cfalse "Reconciling" "Starting reconciliation"
        ⟨"b", "d", "bucket", none, [],
          [⟨"Ready", .cfalse, "Reconciling", "Starting reconciliation", 3⟩], []⟩ 7 true =
      (⟨"b", "d", "bucket", none, [],
          [⟨"Ready", .cfalse, "Reconciling", "Starting reconciliation", 3⟩], []⟩, [], false)) ∧
    countStatusUpdates (setReadyStatus .cfalse "Reconciling" "Starting reconciliation"
        ⟨"b", "d", "bucket", none, [], [], []⟩ 7 true).2.1 = 1 := by
  constructor
  · exact (setReadyStatus_idempotent .cfalse "Reconciling" "Starting reconciliation"
      ⟨"b", "d", "bucket", none, [],
        [⟨"Ready", .cfalse, "Reconciling", "Starting reconciliation", 3⟩], []⟩ 7 7 true true).1
      ⟨⟨"Ready", .cfalse, "Reconciling", "Starting reconciliation", 3⟩, by decide, rfl, rfl, rfl⟩
  · exact (setReadyStatus_idempotent .cfalse "Reconciling" "Starting reconciliation"
      ⟨"b", "d", "bucket", none, [], [], []⟩ 7 7 true true).2.1
      (by rintro ⟨c, hc, -⟩; simp [FindStatusCondition] at hc)

/-- C9: for every kind, name and namespace, GetStack builds the stack name
    as namespace-name, uses the kind as the project name, a fixed s3 backend
    URL, a passphrase secrets provider (both at the stack and the workspace
    level, with the passphrase passed through an environment variable), and
    sets exactly one configuration value, aws:region = us-west-2. -/
theorem getStack_builds_session_config (kind name nspace : String) :
    GetStack kind name nspace true true =
      some ⟨nspace ++ "-" ++ name, kind, "go", "s3://acme-cloud-backend",
        "passphrase", "passphrase", ("PULUMI_CONFIG_PASSPHRASE", "password"),
        [("aws:region", "us-west-2")]⟩ := by
  rfl

/-- C6: a pass whose initial fetch reports NotFound ends with a nil error,
    no requeue, a trace holding nothing but the fetch itself (so no status
    write, no finalizer change and no provisioning call), and no object. -/
theorem notFound_is_clean_noop (env : Env) (h : env.fetch = .notFound) :
    Reconcile env = (⟨false, false⟩, [Event.get], none) := by
  simp [Reconcile, h]

theorem notFound_is_clean_noop_witness :
    Reconcile ⟨.notFound, 0, true, true, true, true, true, true, true, true,
        none, true, none, true, true⟩ =
      (⟨false, false⟩, [Event.get], none) :=
  notFound_is_clean_noop _ rfl

theorem srs_cases (st : CondStatus) (re me : String) (o : Obj) (now : Nat) (p : Bool) :
    setReadyStatus st re me o now p = (o, [], false) ∨
    ∃ o2 : Obj,
      setReadyStatus st re me o now p = (o2, [Event.statusUpdate o2 p], !p) ∧
      o2.name = o.name ∧ o2.nspace = o.nspace ∧ o2.kind = o.kind ∧
      o2.deletionTimestamp = o.deletionTimestamp ∧ o2.finalizers = o.finalizers ∧
      o2.statusPayload = o.statusPayload := by
  cases h : (setStatusCondition o.conditions ⟨conditionTypeReady, st, re, me, 0⟩ now).2 with
  | false => exact Or.inl (srs_noop_of_match st re me o now p h)
  | true =>
    exact Or.inr ⟨_, srs_write_of_change st re me o now p h, rfl, rfl, rfl, rfl, rfl, rfl⟩

theorem addfin_cases (env : Env) (o : Obj) (fin : String) :
    (fin ∈ o.finalizers ∧ addFinalizerStep env o fin = (o, [], false)) ∨
    (fin ∉ o.finalizers ∧ addFinalizerStep env o fin =
      ({ o with finalizers := o.finalizers ++ [fin] },
       [Event.update { o with finalizers := o.finalizers ++ [fin] } env.addFinUpdate],
       !env.addFinUpdate)) := by
  by_cases h : fin ∈ o.finalizers
  · exact Or.inl ⟨h, by unfold addFinalizerStep; rw [if_pos h]⟩
  · exact Or.inr ⟨h, by unfold addFinalizerStep; rw [if_neg h]⟩

theorem bootstrap_cases (env : Env) (o : Obj) :
    (o.conditions ≠ [] ∧ bootstrapStep env o = (o, [], false)) ∨
    (o.conditions = [] ∧
      bootstrapStep env o =
        ({ o with conditions := [⟨conditionTypeReady, .cfalse, "Reconciling",
            "Starting reconciliation", env.now⟩] },
         [Event.statusUpdate { o with conditions := [⟨conditionTypeReady, .cfalse,
            "Reconciling", "Starting reconciliation", env.now⟩] } env.bootstrapPersist],
         !env.bootstrapPersist)) := by
  by_cases h : o.conditions = []
  · right
    refine ⟨h, ?_⟩
    have h2 : (setStatusCondition o.conditions
        ⟨conditionTypeReady, .cfalse, "Reconciling", "Starting reconciliation", 0⟩
        env.now).2 = true := by
      rw [h]; simp [setStatusCondition]
    have h3 : (setStatusCondition o.conditions
        ⟨conditionTypeReady, .cfalse, "Reconciling", "Starting reconciliation", 0⟩
        env.now).1 = [⟨conditionTypeReady, .cfalse, "Reconciling",
          "Starting reconciliation", env.now⟩] := by
      rw [h]; simp [setStatusCondition]
    unfold bootstrapStep
    rw [if_pos (by simp [h])]
    rw [srs_write_of_change _ _ _ _ _ _ h2, h3]
  · left
    refine ⟨h, ?_⟩
    unfold bootstrapStep
    rw [if_neg (by simp [h])]

theorem reconcile_bootstrap_err (env : Env) (o o1 : Obj) (ev1 : List Event)
    (hf : env.fetch = .found o) (hb : bootstrapStep env o = (o1, ev1, true)) :
    Reconcile env = (⟨false, true⟩, Event.get :: ev1, some o1) := by
  unfold Reconcile
  rw [hf]
  simp [hb]

theorem reconcile_stack_err (env : Env) (o o1 : Obj) (ev1 : List Event)
    (hf : env.fetch = .found o) (hb : bootstrapStep env o = (o1, ev1, false))
    (hs : GetStack (toLowerStr o1.kind) o1.name o1.nspace
      env.stackUpsertOk env.stackConfigOk = none) :
    Reconcile env =
      (⟨false, false⟩, Event.get :: ev1 ++ [Event.stackResolve false], some o1) := by
  unfold Reconcile
  rw [hf]
  simp [hb, hs]

theorem reconcile_active_eq (env : Env) (o o1 : Obj) (ev1 : List Event) (cfg : StackConfig)
    (hf : env.fetch = .found o) (hb : bootstrapStep env o = (o1, ev1, false))
    (hs : GetStack (toLowerStr o1.kind) o1.name o1.nspace
      env.stackUpsertOk env.stackConfigOk = some cfg)
    (hd : o1.deletionTimestamp = none) :
    Reconcile env =
      ((reconcileActive env o1 (toLowerStr o1.kind ++ finalizerSuffix)).1,
       Event.get :: ev1 ++ [Event.stackResolve true]
         ++ (reconcileActive env o1 (toLowerStr o1.kind ++ finalizerSuffix)).2.1,
       some (reconcileActive env o1 (toLowerStr o1.kind ++ finalizerSuffix)).2.2) := by
  unfold Reconcile
  rw [hf]
  simp [hb, hs, hd]

theorem reconcile_deletion_eq (env : Env) (o o1 : Obj) (ev1 : List Event) (cfg : StackConfig)
    (hf : env.fetch = .found o) (hb : bootstrapStep env o = (o1, ev1, false))
    (hs : GetStack (toLowerStr o1.kind) o1.name o1.nspace
      env.stackUpsertOk env.stackConfigOk = some cfg)
    (hd : o1.deletionTimestamp ≠ none) :
    Reconcile env =
      ((reconcileDeletion env o1 (toLowerStr o1.kind ++ finalizerSuffix)).1,
       Event.get :: ev1 ++ [Event.stackResolve true]
         ++ (reconcileDeletion env o1 (toLowerStr o1.kind ++ finalizerSuffix)).2.1,
       some (reconcileDeletion env o1 (toLowerStr o1.kind ++ finalizerSuffix)).2.2) := by
  unfold Reconcile
  rw [hf]
  simp [hb, hs, Option.isNone_iff_eq_none, hd]

theorem teardown_phase_facts (env : Env) (o1 : Obj) (fin : String) :
    (env.destroyOk = false →
      teardownPhase env o1 fin = (⟨false, false⟩, [Event.teardown false], o1)) ∧
    (∀ u, Event.statusUpdate u false ∈ (teardownPhase env o1 fin).2.1 →
      (teardownPhase env o1 fin).1.err = true) ∧
    (∀ u b, Event.update u b ∈ (teardownPhase env o1 fin).2.1 →
      env.destroyOk = true ∧
      tdUpdEvents (teardownPhase env o1 fin).2.1 = [Event.teardown true, Event.update u b] ∧
      fin ∉ u.finalizers ∧
      (b = false → (teardownPhase env o1 fin).1.err = true)) ∧
    (Event.teardown false ∈ (teardownPhase env o1 fin).2.1 →
      (teardownPhase env o1 fin).1 = ⟨false, false⟩) ∧
    (Event.get ∉ (teardownPhase env o1 fin).2.1) ∧
    (∀ b, Event.preview b ∉ (teardownPhase env o1 fin).2.1) ∧
    (∀ b, Event.apply b ∉ (teardownPhase env o1 fin).2.1) ∧
    (∀ b, Event.stackResolve b ∉ (teardownPhase env o1 fin).2.1) := by
  cases hD : env.destroyOk with
  | false =>
    have he : teardownPhase env o1 fin = (⟨false, false⟩, [Event.teardown false], o1) := by
      unfold teardownPhase
      rw [if_neg (by simp [hD])]
    rw [he]
    simp [tdUpdEvents]
  | true =>
    rcases srs_cases .cfalse "Finalizing"
        ("Finalizer operations for custom resource " ++ o1.name
          ++ " name were successfully accomplished") o1 env.now env.finDonePersist with
      h | ⟨o2, h, -, -, -, -, hfin2, -⟩
    · by_cases hm : fin ∈ o1.finalizers
      · have he : teardownPhase env o1 fin =
            (⟨false, !env.removeFinUpdate⟩,
             [Event.teardown true,
              Event.update { o1 with finalizers := o1.finalizers.filter (fun f => f != fin) } env.removeFinUpdate],
             { o1 with finalizers := o1.finalizers.filter (fun f => f != fin) }) := by
          unfold teardownPhase
          rw [if_pos (by simp [hD]), h]
          simp [hm]
        rw [he]
        simp [hD, tdUpdEvents, List.mem_filter]
      · have he : teardownPhase env o1 fin = (⟨true, false⟩, [Event.teardown true], o1) := by
          unfold teardownPhase
          rw [if_pos (by simp [hD]), h]
          simp [hm]
        rw [he]
        simp [tdUpdEvents]
    · cases hp : env.finDonePersist with
      | false =>
        have he : teardownPhase env o1 fin =
            (⟨false, true⟩, [Event.teardown true, Event.statusUpdate o2 false], o2) := by
          unfold teardownPhase
          rw [if_pos (by simp [hD]), h, hp]
          simp
        rw [he]
        simp [tdUpdEvents]
      | true =>
        by_cases hm : fin ∈ o2.finalizers
        · have he : teardownPhase env o1 fin =
              (⟨false, !env.removeFinUpdate⟩,
               [Event.teardown true, Event.statusUpdate o2 true,
                Event.update { o2 with finalizers := o2.finalizers.filter (fun f => f != fin) } env.removeFinUpdate],
               { o2 with finalizers := o2.finalizers.filter (fun f => f != fin) }) := by
            unfold teardownPhase
            rw [if_pos (by simp [hD]), h, hp]
            simp [hm]
          rw [he]
          simp [hD, tdUpdEvents, List.mem_filter]
        · have he : teardownPhase env o1 fin =
              (⟨true, false⟩, [Event.teardown true, Event.statusUpdate o2 true], o2) := by
            unfold teardownPhase
            rw [if_pos (by simp [hD]), h, hp]
            simp [hm]
          rw [he]
          simp [tdUpdEvents]

theorem deletion_facts (env : Env) (o : Obj) (fin : String) :
    (env.destroyOk = false →
      (reconcileDeletion env o fin).2.2.finalizers = o.finalizers ∧
      ∀ u b, Event.update u b ∉ (reconcileDeletion env o fin).2.1) ∧
    (∀ u b, Event.update u b ∈ (reconcileDeletion env o fin).2.1 →
      env.destroyOk = true ∧
      tdUpdEvents (reconcileDeletion env o fin).2.1 =
        [Event.teardown true, Event.update u b] ∧
      fin ∉ u.finalizers ∧
      (b = false → (reconcileDeletion env o fin).1.err = true)) ∧
    (∀ u, Event.statusUpdate u false ∈ (reconcileDeletion env o fin).2.1 →
      (reconcileDeletion env o fin).1.err = true) ∧
    (Event.teardown false ∈ (reconcileDeletion env o fin).2.1 →
      (reconcileDeletion env o fin).1 = ⟨false, false⟩) ∧
    (Event.get ∉ (reconcileDeletion env o fin).2.1) ∧
    (∀ b, Event.preview b ∉ (reconcileDeletion env o fin).2.1) ∧
    (∀ b, Event.apply b ∉ (reconcileDeletion env o fin).2.1) ∧
    (∀ b, Event.stackResolve b ∉ (reconcileDeletion env o fin).2.1) := by
  by_cases hm : fin ∈ o.finalizers
  · rcases srs_cases .cfalse "Finalizing"
        ("Performing finalizer operations for the custom resource: " ++ o.name)
        o env.now env.finStartPersist with
      h | ⟨o2, h, -, -, -, -, hfin2, -⟩
    · have he : reconcileDeletion env o fin =
          ((teardownPhase env o fin).1, (teardownPhase env o fin).2.1,
           (teardownPhase env o fin).2.2) := by
        unfold reconcileDeletion
        rw [if_pos hm, h]
        simp
      obtain ⟨tf1, tf2, tf3, tf4, tf5, tf6, tf7, tf8⟩ := teardown_phase_facts env o fin
      rw [he]
      refine ⟨?_, tf3, tf2, tf4, tf5, tf6, tf7, tf8⟩
      intro hD
      rw [tf1 hD]
      simp
    · cases hp : env.finStartPersist with
      | false =>
        have he : reconcileDeletion env o fin =
            (⟨false, true⟩, [Event.statusUpdate o2 false], o2) := by
          unfold reconcileDeletion
          rw [if_pos hm, h, hp]
          simp
        rw [he]
        simp [hfin2]
      | true =>
        have he : reconcileDeletion env o fin =
            ((teardownPhase env o2 fin).1,
             [Event.statusUpdate o2 true] ++ (teardownPhase env o2 fin).2.1,
             (teardownPhase env o2 fin).2.2) := by
          unfold reconcileDeletion
          rw [if_pos hm, h, hp]
          simp
        obtain ⟨tf1, tf2, tf3, tf4, tf5, tf6, tf7, tf8⟩ := teardown_phase_facts env o2 fin
        rw [he]
        refine ⟨?_, ?_, ?_, ?_, ?_, ?_, ?_, ?_⟩
        · intro hD
          rw [tf1 hD]
          simp [hfin2]
        · intro u b hu
          have hu2 : Event.update u b ∈ (teardownPhase env o2 fin).2.1 := by
            simpa using hu
          obtain ⟨j1, j2, j3, j4⟩ := tf3 u b hu2
          refine ⟨j1, ?_, j3, j4⟩
          simp [tdUpdEvents, List.filter_append] at j2 ⊢
          exact j2
        · intro u hu
          have hu2 : Event.statusUpdate u false ∈ (teardownPhase env o2 fin).2.1 := by
            simpa using hu
          exact tf2 u hu2
        · intro ht
          have ht2 : Event.teardown false ∈ (teardownPhase env o2 fin).2.1 := by
            simpa using ht
          exact tf4 ht2
        · simpa using tf5
        · intro b
          simpa using tf6 b
        · intro b
          simpa using tf7 b
        · intro b
          simpa using tf8 b
  · have he : reconcileDeletion env o fin = (⟨false, false⟩, [], o) := by
      unfold reconcileDeletion
      rw [if_neg hm]
    rw [he]
    simp

theorem publish_facts (env : Env) (o2 : Obj) :
    (∀ u, Event.statusUpdate u false ∈ (publishPhase env o2).2.1 →
      (publishPhase env o2).1.err = true) ∧
    (∀ u b, Event.update u b ∉ (publishPhase env o2).2.1) ∧
    (Event.apply false ∈ (publishPhase env o2).2.1 →
      (publishPhase env o2).1.err = true) ∧
    (∃ b rest, (publishPhase env o2).2.1 = Event.apply b :: rest ∧
      updApplyEvents (publishPhase env o2).2.1 = [Event.apply b]) ∧
    (Event.get ∉ (publishPhase env o2).2.1) ∧
    (∀ b, Event.teardown b ∉ (publishPhase env o2).2.1) ∧
    (∀ b, Event.stackResolve b ∉ (publishPhase env o2).2.1) ∧
    (∀ b, Event.preview b ∉ (publishPhase env o2).2.1) := by
  rcases hu : env.upRes with _ | outs
  · have he : publishPhase env o2 = (⟨false, true⟩, [Event.apply false], o2) := by
      unfold publishPhase
      rw [hu]
    rw [he]
    simp [updApplyEvents]
  · cases hop : env.outputsPersist with
    | false =>
      have he : publishPhase env o2 =
          (⟨false, true⟩,
           [Event.apply true,
            Event.statusUpdate { o2 with statusPayload := outs } false],
           { o2 with statusPayload := outs }) := by
        unfold publishPhase
        rw [hu, hop]
        simp
      rw [he]
      simp [updApplyEvents]
    | true =>
      rcases srs_cases .ctrue "Created" "The Object was successfully created"
          { o2 with statusPayload := outs } env.now env.readyPersist with
        h | ⟨o4, h, -⟩
      · have he : publishPhase env o2 =
            (⟨false, false⟩,
             [Event.apply true,
              Event.statusUpdate { o2 with statusPayload := outs } true],
             { o2 with statusPayload := outs }) := by
          unfold publishPhase
          rw [hu, hop]
          simp [h]
        rw [he]
        simp [updApplyEvents]
      · have he : publishPhase env o2 =
            (⟨false, !env.readyPersist⟩,
             [Event.apply true,
              Event.statusUpdate { o2 with statusPayload := outs } true,
              Event.statusUpdate o4 env.readyPersist],
             o4) := by
          unfold publishPhase
          rw [hu, hop]
          simp [h]
        rw [he]
        cases hr : env.readyPersist <;> simp [updApplyEvents]

theorem readyMatches_iff (o : Obj) (st : CondStatus) (re me : String) :
    readyMatches o st re me = true ↔
      ∃ c, FindStatusCondition o.conditions conditionTypeReady = some c ∧
        c.status = st ∧ c.reason = re ∧ c.message = me := by
  unfold readyMatches
  rcases h : FindStatusCondition o.conditions conditionTypeReady with _ | c
  · simp
  · simp only [Bool.and_eq_true, beq_iff_eq]
    constructor
    · rintro ⟨⟨h1, h2⟩, h3⟩
      exact ⟨c, rfl, h1, h2, h3⟩
    · rintro ⟨d, hd, h1, h2, h3⟩
      injection hd with hd
      subst hd
      exact ⟨⟨h1, h2⟩, h3⟩

theorem srs_noop_of_readyMatches (st : CondStatus) (re me : String) (o : Obj)
    (now : Nat) (p : Bool) (h : readyMatches o st re me = true) :
    setReadyStatus st re me o now p = (o, [], false) :=
  srs_noop_of_match st re me o now p
    ((ssc_false_iff o.conditions ⟨conditionTypeReady, st, re, me, 0⟩ now).2
      ((readyMatches_iff o st re me).1 h))

theorem updApply_single (tr : List Event) (b0 : Bool) (rest : List Event)
    (h1 : tr = Event.apply b0 :: rest)
    (h2 : updApplyEvents tr = [Event.apply b0]) :
    ∀ b2, Event.apply b2 ∈ tr → b2 = b0 := by
  subst h1
  intro b2 hb2
  rcases List.mem_cons.1 hb2 with hx | hx
  · simpa using hx
  · exfalso
    have h3 : updApplyEvents (Event.apply b0 :: rest) =
        Event.apply b0 :: updApplyEvents rest := by
      simp [updApplyEvents]
    rw [h3] at h2
    injection h2 with h5 h4
    have h6 : Event.apply b2 ∈ updApplyEvents rest := by
      unfold updApplyEvents
      rw [List.mem_filter]
      exact ⟨hx, rfl⟩
    rw [h4] at h6
    simp at h6

theorem changed_facts (env : Env) (oF : Obj) :
    (∀ u, Event.statusUpdate u false ∈ (changedPhase env oF).2.1 →
      (changedPhase env oF).1.err = true) ∧
    (∀ u b, Event.update u b ∉ (changedPhase env oF).2.1) ∧
    (Event.apply false ∈ (changedPhase env oF).2.1 →
      (changedPhase env oF).1.err = true) ∧
    (∀ b, Event.apply b ∈ (changedPhase env oF).2.1 →
      updApplyEvents (changedPhase env oF).2.1 = [Event.apply b]) ∧
    (Event.get ∉ (changedPhase env oF).2.1) ∧
    (∀ b, Event.teardown b ∉ (changedPhase env oF).2.1) ∧
    (∀ b, Event.stackResolve b ∉ (changedPhase env oF).2.1) ∧
    (∀ b, Event.preview b ∉ (changedPhase env oF).2.1) ∧
    (readyMatches oF .cfalse "Reconciling" "Starting reconciliation" = true →
      ∃ b rest, (changedPhase env oF).2.1 = Event.apply b :: rest) := by
  rcases hsc : srs_cases .cfalse "Reconciling" "Starting reconciliation"
      oF env.now env.reconcilingPersist with h | ⟨o2, h, -⟩
  · have he : changedPhase env oF =
        ((publishPhase env oF).1, (publishPhase env oF).2.1, (publishPhase env oF).2.2) := by
      unfold changedPhase
      rw [h]
      simp
    obtain ⟨p1, p2, p3, p4, p5, p6, p7, p8⟩ := publish_facts env oF
    rw [he]
    obtain ⟨b0, rest0, hb0, hu0⟩ := p4
    refine ⟨p1, p2, p3, ?_, p5, p6, p7, p8, ?_⟩
    · intro b hb
      have hbb := updApply_single _ b0 rest0 hb0 hu0 b hb
      subst hbb
      exact hu0
    · intro _
      exact ⟨b0, rest0, hb0⟩
  · cases hr : env.reconcilingPersist with
    | false =>
      rw [hr] at h
      have he : changedPhase env oF = (⟨false, true⟩, [Event.statusUpdate o2 false], o2) := by
        unfold changedPhase
        rw [hr, h]
        simp
      rw [he]
      refine ⟨by simp, by simp, by simp, by simp, by simp, by simp, by simp, by simp, ?_⟩
      intro hm
      rw [srs_noop_of_readyMatches .cfalse "Reconciling" "Starting reconciliation"
        oF env.now false hm] at h
      simp at h
    | true =>
      rw [hr] at h
      have he : changedPhase env oF =
          ((publishPhase env o2).1,
           [Event.statusUpdate o2 true] ++ (publishPhase env o2).2.1,
           (publishPhase env o2).2.2) := by
        unfold changedPhase
        rw [hr, h]
        simp
      obtain ⟨p1, p2, p3, p4, p5, p6, p7, p8⟩ := publish_facts env o2
      rw [he]
      refine ⟨?_, ?_, ?_, ?_, ?_, ?_, ?_, ?_, ?_⟩
      · intro u hu
        exact p1 u (by simpa using hu)
      · intro u b
        simpa using p2 u b
      · intro hb
        exact p3 (by simpa using hb)
      · intro b hb
        obtain ⟨b0, rest0, hb0, hu0⟩ := p4
        have hb2 : Event.apply b ∈ (publishPhase env o2).2.1 := by simpa using hb
        have hbb := updApply_single _ b0 rest0 hb0 hu0 b hb2
        subst hbb
        have htr : updApplyEvents
            ([Event.statusUpdate o2 true] ++ (publishPhase env o2).2.1) =
            updApplyEvents (publishPhase env o2).2.1 := by
          simp [updApplyEvents]
        rw [htr]
        exact hu0
      · simpa using p5
      · intro b
        simpa using p6 b
      · intro b
        simpa using p7 b
      · intro b
        simpa using p8 b
      · intro hm
        rw [srs_noop_of_readyMatches .cfalse "Reconciling" "Starting reconciliation"
          oF env.now true hm] at h
        simp at h

theorem preview_facts (env : Env) (oF : Obj) :
    (∀ u, Event.statusUpdate u false ∈ (previewPhase env oF).2.1 →
      (previewPhase env oF).1.err = true) ∧
    (∀ u b, Event.update u b ∉ (previewPhase env oF).2.1) ∧
    (Event.preview false ∈ (previewPhase env oF).2.1 →
      (previewPhase env oF).1.err = true) ∧
    (Event.apply false ∈ (previewPhase env oF).2.1 →
      (previewPhase env oF).1.err = true) ∧
    (∀ b, Event.apply b ∈ (previewPhase env oF).2.1 →
      updApplyEvents (previewPhase env oF).2.1 = [Event.apply b]) ∧
    (Event.get ∉ (previewPhase env oF).2.1) ∧
    (∀ b, Event.teardown b ∉ (previewPhase env oF).2.1) ∧
    (∀ b, Event.stackResolve b ∉ (previewPhase env oF).2.1) ∧
    (∀ ops, env.previewRes = some ops →
      (ops.any (fun op => op != OpKind.same)) = false →
      previewPhase env oF = (⟨false, false⟩, [Event.preview true], oF)) ∧
    (readyMatches oF .cfalse "Reconciling" "Starting reconciliation" = true →
      ∀ ops, env.previewRes = some ops →
      (ops.any (fun op => op != OpKind.same)) = true →
      ∃ b post, (previewPhase env oF).2.1 =
        Event.preview true :: Event.apply b :: post) := by
  rcases hp : env.previewRes with _ | ops
  · have he : previewPhase env oF = (⟨false, true⟩, [Event.preview false], oF) := by
      unfold previewPhase
      rw [hp]
    rw [he]
    simp [hp]
  · cases ha : ops.any (fun op => op != OpKind.same) with
    | false =>
      have he : previewPhase env oF = (⟨false, false⟩, [Event.preview true], oF) := by
        unfold previewPhase
        rw [hp]
        simp [ha]
      rw [he]
      refine ⟨by simp, by simp, by simp, by simp, by simp, by simp, by simp, by simp, ?_, ?_⟩
      · intro ops2 hp2 ha2
        rfl
      · intro hm ops2 hp2 ha2
        injection hp2 with hp2
        subst hp2
        rw [ha] at ha2
        exact absurd ha2 (by simp)
    | true =>
      have he : previewPhase env oF =
          ((changedPhase env oF).1,
           [Event.preview true] ++ (changedPhase env oF).2.1,
           (changedPhase env oF).2.2) := by
        unfold previewPhase
        rw [hp]
        simp [ha]
      obtain ⟨c1, c2, c3, c4, c5, c6, c7, c8, c9⟩ := changed_facts env oF
      rw [he]
      refine ⟨?_, ?_, ?_, ?_, ?_, ?_, ?_, ?_, ?_, ?_⟩
      · intro u hu
        exact c1 u (by simpa using hu)
      · intro u b
        simpa using c2 u b
      · intro hb
        have hb2 : Event.preview false ∈ (changedPhase env oF).2.1 := by
          simpa using hb
        exact absurd hb2 (c8 false)
      · intro hb
        exact c3 (by simpa using hb)
      · intro b hb
        have hb2 : Event.apply b ∈ (changedPhase env oF).2.1 := by simpa using hb
        have htr : updApplyEvents
            ([Event.preview true] ++ (changedPhase env oF).2.1) =
            updApplyEvents (changedPhase env oF).2.1 := by
          simp [updApplyEvents]
        rw [htr]
        exact c4 b hb2
      · simpa using c5
      · intro b
        simpa using c6 b
      · intro b
        simpa using c7 b
      · intro ops2 hp2 ha2
        injection hp2 with hp2
        subst hp2
        rw [ha] at ha2
        exact absurd ha2 (by simp)
      · intro hm ops2 hp2 ha2
        obtain ⟨b, rest, hbr⟩ := c9 hm
        exact ⟨b, rest, by rw [hbr]; rfl⟩

theorem active_facts (env : Env) (o : Obj) (fin : String) :
    (∀ u, Event.statusUpdate u false ∈ (reconcileActive env o fin).2.1 →
      (reconcileActive env o fin).1.err = true) ∧
    (∀ u, Event.update u false ∈ (reconcileActive env o fin).2.1 →
      (reconcileActive env o fin).1.err = true) ∧
    (Event.preview false ∈ (reconcileActive env o fin).2.1 →
      (reconcileActive env o fin).1.err = true) ∧
    (Event.apply false ∈ (reconcileActive env o fin).2.1 →
      (reconcileActive env o fin).1.err = true) ∧
    (Event.get ∉ (reconcileActive env o fin).2.1) ∧
    (∀ b, Event.teardown b ∉ (reconcileActive env o fin).2.1) ∧
    (∀ b, Event.stackResolve b ∉ (reconcileActive env o fin).2.1) ∧
    (fin ∉ o.finalizers →
      ∀ b, Event.apply b ∈ (reconcileActive env o fin).2.1 →
      ∃ u, updApplyEvents (reconcileActive env o fin).2.1 =
          [Event.update u true, Event.apply b] ∧ fin ∈ u.finalizers) ∧
    (∀ ops, env.previewRes = some ops →
      (ops.any (fun op => op != OpKind.same)) = false →
      (fin ∈ o.finalizers →
        reconcileActive env o fin = (⟨false, false⟩, [Event.preview true], o)) ∧
      (fin ∉ o.finalizers → env.addFinUpdate = true →
        reconcileActive env o fin =
          (⟨false, false⟩,
           [Event.update { o with finalizers := o.finalizers ++ [fin] } true,
            Event.preview true],
           { o with finalizers := o.finalizers ++ [fin] }))) ∧
    (readyMatches o .cfalse "Reconciling" "Starting reconciliation" = true →
      (fin ∉ o.finalizers → env.addFinUpdate = true) →
      ∀ ops, env.previewRes = some ops →
      (ops.any (fun op => op != OpKind.same)) = true →
      ∃ pre b post,
        (reconcileActive env o fin).2.1 = pre ++ Event.apply b :: post ∧
        countStatusUpdates pre = 0) := by
  rcases addfin_cases env o fin with ⟨hm, hs⟩ | ⟨hm, hs⟩
  · have he : reconcileActive env o fin =
        ((previewPhase env o).1, (previewPhase env o).2.1, (previewPhase env o).2.2) := by
      unfold reconcileActive
      rw [hs]
      simp
    obtain ⟨v1, v2, v3, v4, v5, v6, v7, v8, v9, v10⟩ := preview_facts env o
    rw [he]
    refine ⟨v1, ?_, v3, v4, v6, v7, v8, ?_, ?_, ?_⟩
    · intro u hu
      exact absurd hu (v2 u false)
    · intro hnm
      exact absurd hm hnm
    · intro ops hp ha
      refine ⟨fun _ => ?_, fun hnm _ => absurd hm hnm⟩
      rw [v9 ops hp ha]
    · intro hmm hfl ops hp ha
      obtain ⟨b, post, hbp⟩ := v10 hmm ops hp ha
      refine ⟨[Event.preview true], b, post, by rw [hbp]; rfl, by
        simp [countStatusUpdates, isStatusUpdate]⟩
  · cases hA : env.addFinUpdate with
    | false =>
      have he : reconcileActive env o fin =
          (⟨false, true⟩,
           [Event.update { o with finalizers := o.finalizers ++ [fin] } false],
           { o with finalizers := o.finalizers ++ [fin] }) := by
        unfold reconcileActive
        rw [hs, hA]
        simp
      rw [he]
      refine ⟨by simp, by simp, by simp, by simp, by simp, by simp, by simp,
        ?_, ?_, ?_⟩
      · intro hnm b hb
        simp at hb
      · intro ops hp ha
        exact ⟨fun hmem => absurd hmem hm, fun _ hA2 => by cases hA2⟩
      · intro hmm hfl ops hp ha
        cases hfl hm
    | true =>
      have he : reconcileActive env o fin =
          ((previewPhase env { o with finalizers := o.finalizers ++ [fin] }).1,
           [Event.update { o with finalizers := o.finalizers ++ [fin] } true]
             ++ (previewPhase env { o with finalizers := o.finalizers ++ [fin] }).2.1,
           (previewPhase env { o with finalizers := o.finalizers ++ [fin] }).2.2) := by
        unfold reconcileActive
        rw [hs, hA]
        simp
      obtain ⟨v1, v2, v3, v4, v5, v6, v7, v8, v9, v10⟩ :=
        preview_facts env { o with finalizers := o.finalizers ++ [fin] }
      rw [he]
      refine ⟨?_, ?_, ?_, ?_, ?_, ?_, ?_, ?_, ?_, ?_⟩
      · intro u hu
        exact v1 u (by simpa using hu)
      · intro u hu
        rcases List.mem_append.1 hu with hx | hx
        · simp at hx
        · exact absurd hx (v2 u false)
      · intro hb
        have hb2 : Event.preview false ∈
            (previewPhase env { o with finalizers := o.finalizers ++ [fin] }).2.1 := by
          simpa using hb
        exact v3 hb2
      · intro hb
        exact v4 (by simpa using hb)
      · simpa using v6
      · intro b
        simpa using v7 b
      · intro b
        simpa using v8 b
      · intro hnm b hb
        have hb2 : Event.apply b ∈
            (previewPhase env { o with finalizers := o.finalizers ++ [fin] }).2.1 := by
          simpa using hb
        have hupd := v5 b hb2
        refine ⟨{ o with finalizers := o.finalizers ++ [fin] }, ?_, by simp⟩
        have htr : updApplyEvents
            ([Event.update { o with finalizers := o.finalizers ++ [fin] } true]
              ++ (previewPhase env { o with finalizers := o.finalizers ++ [fin] }).2.1) =
            Event.update { o with finalizers := o.finalizers ++ [fin] } true ::
              updApplyEvents
                (previewPhase env { o with finalizers := o.finalizers ++ [fin] }).2.1 := by
          simp [updApplyEvents]
        rw [htr, hupd]
      · intro ops hp ha
        refine ⟨fun hmem => absurd hmem hm, fun _ _ => ?_⟩
        rw [v9 ops hp ha]
        rfl
      · intro hmm hfl ops hp ha
        obtain ⟨b, post, hbp⟩ := v10 hmm ops hp ha
        refine ⟨[Event.update { o with finalizers := o.finalizers ++ [fin] } true,
          Event.preview true], b, post, ?_, by simp [countStatusUpdates, isStatusUpdate]⟩
        rw [hbp]
        rfl

theorem bootstrap_any (env : Env) (o : Obj) :
    ∃ o1 ev1 e1, bootstrapStep env o = (o1, ev1, e1) ∧
      o1.name = o.name ∧ o1.nspace = o.nspace ∧ o1.kind = o.kind ∧
      o1.deletionTimestamp = o.deletionTimestamp ∧ o1.finalizers = o.finalizers ∧
      ((ev1 = [] ∧ e1 = false) ∨
       (ev1 = [Event.statusUpdate o1 env.bootstrapPersist] ∧
        e1 = !env.bootstrapPersist)) := by
  rcases bootstrap_cases env o with ⟨-, hb⟩ | ⟨-, hb⟩
  · exact ⟨o, [], false, hb, rfl, rfl, rfl, rfl, rfl, Or.inl ⟨rfl, rfl⟩⟩
  · exact ⟨_, _, _, hb, rfl, rfl, rfl, rfl, rfl, Or.inr ⟨rfl, rfl⟩⟩

theorem C1_tail (env : Env) (o o1 : Obj) (ev1 : List Event)
    (hf : env.fetch = .found o)
    (hb : bootstrapStep env o = (o1, ev1, false))
    (hev : ∀ u b, Event.update u b ∉ ev1)
    (htd : tdUpdEvents ev1 = [])
    (hk : o1.kind = o.kind) (hdel : o1.deletionTimestamp = o.deletionTimestamp)
    (hfl : o1.finalizers = o.finalizers)
    (hd : o.deletionTimestamp ≠ none)
    (hfin : toLowerStr o.kind ++ finalizerSuffix ∈ o.finalizers) :
    (env.destroyOk = false →
      (∃ p, (Reconcile env).2.2 = some p ∧
        toLowerStr o.kind ++ finalizerSuffix ∈ p.finalizers) ∧
      ∀ u b, Event.update u b ∉ (Reconcile env).2.1) ∧
    (∀ u b, Event.update u b ∈ (Reconcile env).2.1 →
      env.destroyOk = true ∧
      tdUpdEvents (Reconcile env).2.1 = [Event.teardown true, Event.update u b] ∧
      toLowerStr o.kind ++ finalizerSuffix ∉ u.finalizers) := by
  rcases hg : GetStack (toLowerStr o1.kind) o1.name o1.nspace
      env.stackUpsertOk env.stackConfigOk with _ | cfg
  · rw [reconcile_stack_err env o o1 ev1 hf hb hg]
    constructor
    · intro _
      refine ⟨⟨o1, rfl, ?_⟩, ?_⟩
      · rw [hfl]
        exact hfin
      · intro u b hu
        simp at hu
        exact absurd hu (hev u b)
    · intro u b hu
      simp at hu
      exact absurd hu (hev u b)
  · rw [reconcile_deletion_eq env o o1 ev1 cfg hf hb hg (by rw [hdel]; exact hd)]
    obtain ⟨d1, d2, d3, d4, d5, d6, d7, d8⟩ :=
      deletion_facts env o1 (toLowerStr o1.kind ++ finalizerSuffix)
    constructor
    · intro hD
      obtain ⟨dfin, dupd⟩ := d1 hD
      refine ⟨⟨_, rfl, ?_⟩, ?_⟩
      · rw [dfin, hfl]
        exact hfin
      · intro u b hu
        simp at hu
        rcases hu with hu | hu
        · exact absurd hu (hev u b)
        · exact absurd hu (dupd u b)
    · intro u b hu
      simp at hu
      rcases hu with hu | hu
      · exact absurd hu (hev u b)
      · obtain ⟨hD, htdrd, hnf, -⟩ := d2 u b hu
        refine ⟨hD, ?_, ?_⟩
        · have hsplit : tdUpdEvents (Event.get :: ev1 ++ [Event.stackResolve true]
              ++ (reconcileDeletion env o1 (toLowerStr o1.kind ++ finalizerSuffix)).2.1) =
              tdUpdEvents ev1 ++ tdUpdEvents
                (reconcileDeletion env o1 (toLowerStr o1.kind ++ finalizerSuffix)).2.1 := by
            simp [tdUpdEvents]
          rw [hsplit, htd, htdrd]
          rfl
        · rw [hk] at hnf
          exact hnf

/-- C1: for every pass on an object whose deletion timestamp is set and
    whose finalizer is present, the finalizer is removed and the removal
    persisted only after the destroy call of the session returned success:
    when destroy fails the pass performs no object update at all and the
    final object still carries the finalizer, and any object update in the
    trace happens strictly after a successful teardown event and persists an
    object without the finalizer. -/
theorem teardown_gates_finalizer_removal (env : Env) (o : Obj)
    (hf : env.fetch = .found o)
    (hd : o.deletionTimestamp ≠ none)
    (hfin : toLowerStr o.kind ++ finalizerSuffix ∈ o.finalizers) :
    (env.destroyOk = false →
      (∃ p, (Reconcile env).2.2 = some p ∧
        toLowerStr o.kind ++ finalizerSuffix ∈ p.finalizers) ∧
      ∀ u b, Event.update u b ∉ (Reconcile env).2.1) ∧
    (∀ u b, Event.update u b ∈ (Reconcile env).2.1 →
      env.destroyOk = true ∧
      tdUpdEvents (Reconcile env).2.1 = [Event.teardown true, Event.update u b] ∧
      toLowerStr o.kind ++ finalizerSuffix ∉ u.finalizers) := by
  obtain ⟨o1, ev1, e1, hb, -, -, hk, hdel, hfl, hshape⟩ := bootstrap_any env o
  rcases hshape with ⟨hev1, he1⟩ | ⟨hev1, he1⟩
  · subst hev1
    subst he1
    exact C1_tail env o o1 [] hf hb (by simp) (by simp [tdUpdEvents]) hk hdel hfl hd hfin
  · cases hbp : env.bootstrapPersist with
    | false =>
      rw [hbp] at hev1 he1
      simp only [Bool.not_false] at he1
      subst hev1
      subst he1
      rw [reconcile_bootstrap_err env o o1 _ hf hb]
      constructor
      · intro _
        refine ⟨⟨o1, rfl, by rw [hfl]; exact hfin⟩, ?_⟩
        intro u b hu
        simp at hu
      · intro u b hu
        simp at hu
    | true =>
      rw [hbp] at hev1 he1
      simp only [Bool.not_true] at he1
      subst hev1
      subst he1
      exact C1_tail env o o1 [Event.statusUpdate o1 true] hf hb (by simp)
        (by simp [tdUpdEvents]) hk hdel hfl hd hfin

theorem teardown_gates_finalizer_removal_witness :
    (∃ p, (Reconcile ⟨.found ⟨"b", "d", "bucket", some 1,
        ["bucket.cloud.acme.local/finalizer"],
        [⟨"Ready", .ctrue, "Created", "m", 1⟩], []⟩, 5, true, true, true, true,
        true, false, true, true, none, true, none, true, true⟩).2.2 = some p ∧
      toLowerStr "bucket" ++ finalizerSuffix ∈ p.finalizers) ∧
    (∀ u b, Event.update u b ∉ (Reconcile ⟨.found ⟨"b", "d", "bucket", some 1,
        ["bucket.cloud.acme.local/finalizer"],
        [⟨"Ready", .ctrue, "Created", "m", 1⟩], []⟩, 5, true, true, true, true,
        true, false, true, true, none, true, none, true, true⟩).2.1) :=
  (teardown_gates_finalizer_removal
    ⟨.found ⟨"b", "d", "bucket", some 1, ["bucket.cloud.acme.local/finalizer"],
        [⟨"Ready", .ctrue, "Created", "m", 1⟩], []⟩, 5, true, true, true, true,
        true, false, true, true, none, true, none, true, true⟩
    ⟨"b", "d", "bucket", some 1, ["bucket.cloud.acme.local/finalizer"],
        [⟨"Ready", .ctrue, "Created", "m", 1⟩], []⟩
    rfl (by decide) (by decide)).1 rfl

theorem C2_tail (env : Env) (o o1 : Obj) (ev1 : List Event)
    (hf : env.fetch = .found o)
    (hb : bootstrapStep env o = (o1, ev1, false))
    (hna : ∀ b, Event.apply b ∉ ev1)
    (hue : updApplyEvents ev1 = [])
    (hk : o1.kind = o.kind) (hdel : o1.deletionTimestamp = o.deletionTimestamp)
    (hfl : o1.finalizers = o.finalizers)
    (hd : o.deletionTimestamp = none)
    (hfin : toLowerStr o.kind ++ finalizerSuffix ∉ o.finalizers) :
    ∀ b, Event.apply b ∈ (Reconcile env).2.1 →
      ∃ u, updApplyEvents (Reconcile env).2.1 =
          [Event.update u true, Event.apply b] ∧
        toLowerStr o.kind ++ finalizerSuffix ∈ u.finalizers := by
  rcases hg : GetStack (toLowerStr o1.kind) o1.name o1.nspace
      env.stackUpsertOk env.stackConfigOk with _ | cfg
  · rw [reconcile_stack_err env o o1 ev1 hf hb hg]
    intro b hb2
    simp at hb2
    exact absurd hb2 (hna b)
  · rw [reconcile_active_eq env o o1 ev1 cfg hf hb hg (by rw [hdel]; exact hd)]
    obtain ⟨a1, a2, a3, a4, a5, a6, a7, a8, a9, a10⟩ :=
      active_facts env o1 (toLowerStr o1.kind ++ finalizerSuffix)
    intro b hb2
    have hfin1 : toLowerStr o1.kind ++ finalizerSuffix ∉ o1.finalizers := by
      rw [hk, hfl]
      exact hfin
    have hb3 : Event.apply b ∈
        (reconcileActive env o1 (toLowerStr o1.kind ++ finalizerSuffix)).2.1 := by
      simp at hb2
      rcases hb2 with h | h
      · exact absurd h (hna b)
      · exact h
    obtain ⟨u, hupd, humem⟩ := a8 hfin1 b hb3
    refine ⟨u, ?_, by rw [hk] at humem; exact humem⟩
    have hsplit : updApplyEvents (Event.get :: ev1 ++ [Event.stackResolve true]
        ++ (reconcileActive env o1 (toLowerStr o1.kind ++ finalizerSuffix)).2.1) =
        updApplyEvents ev1 ++ updApplyEvents
          (reconcileActive env o1 (toLowerStr o1.kind ++ finalizerSuffix)).2.1 := by
      simp [updApplyEvents]
    rw [hsplit, hue, hupd]
    rfl

/-- C2: for every pass on an active object (no deletion timestamp) that does
    not yet carry the finalizer for its kind, any apply call in the trace is
    preceded by exactly one successful generic object update, and the object
    persisted by that update carries the finalizer: restricted to update and
    apply events the trace is precisely the successful finalizer write
    followed by the apply call. -/
theorem finalizer_persisted_before_apply (env : Env) (o : Obj)
    (hf : env.fetch = .found o)
    (hd : o.deletionTimestamp = none)
    (hfin : toLowerStr o.kind ++ finalizerSuffix ∉ o.finalizers) :
    ∀ b, Event.apply b ∈ (Reconcile env).2.1 →
      ∃ u, updApplyEvents (Reconcile env).2.1 =
          [Event.update u true, Event.apply b] ∧
        toLowerStr o.kind ++ finalizerSuffix ∈ u.finalizers := by
  obtain ⟨o1, ev1, e1, hb, -, -, hk, hdel, hfl, hshape⟩ := bootstrap_any env o
  rcases hshape with ⟨hev, he1⟩ | ⟨hev, he1⟩
  · subst hev
    subst he1
    exact C2_tail env o o1 [] hf hb (by simp) (by simp [updApplyEvents])
      hk hdel hfl hd hfin
  · cases hbp : env.bootstrapPersist with
    | false =>
      rw [hbp] at hev he1
      simp only [Bool.not_false] at he1
      subst hev
      subst he1
      rw [reconcile_bootstrap_err env o o1 _ hf hb]
      intro b hb2
      simp at hb2
    | true =>
      rw [hbp] at hev he1
      simp only [Bool.not_true] at he1
      subst hev
      subst he1
      exact C2_tail env o o1 [Event.statusUpdate o1 true] hf hb (by simp)
        (by simp [updApplyEvents]) hk hdel hfl hd hfin

theorem finalizer_persisted_before_apply_witness :
    ∃ u, updApplyEvents (Reconcile ⟨.found ⟨"my-bucket", "default", "Bucket",
        none, [], [], []⟩, 5, true, true, true, true, true, true, true, true,
        some [OpKind.create], true, some [("arn", "x")], true, true⟩).2.1 =
        [Event.update u true, Event.apply true] ∧
      toLowerStr "Bucket" ++ finalizerSuffix ∈ u.finalizers :=
  finalizer_persisted_before_apply
    ⟨.found ⟨"my-bucket", "default", "Bucket", none, [], [], []⟩, 5, true, true,
      true, true, true, true, true, true, some [OpKind.create], true,
      some [("arn", "x")], true, true⟩
    ⟨"my-bucket", "default", "Bucket", none, [], [], []⟩
    rfl rfl (by decide) true (by decide)

theorem C3_tail (env : Env) (o o1 : Obj) (ev1 : List Event)
    (hf : env.fetch = .found o)
    (hb : bootstrapStep env o = (o1, ev1, false))
    (hev : ev1 = [] ∨ ev1 = [Event.statusUpdate o1 true]) :
    (∀ u, Event.statusUpdate u false ∈ (Reconcile env).2.1 →
      (Reconcile env).1.err = true) ∧
    (∀ u, Event.update u false ∈ (Reconcile env).2.1 →
      (Reconcile env).1.err = true) ∧
    (Event.preview false ∈ (Reconcile env).2.1 → (Reconcile env).1.err = true) ∧
    (Event.apply false ∈ (Reconcile env).2.1 → (Reconcile env).1.err = true) ∧
    (Event.stackResolve false ∈ (Reconcile env).2.1 →
      (Reconcile env).1.err = false) ∧
    (Event.teardown false ∈ (Reconcile env).2.1 →
      (Reconcile env).1.err = false) := by
  have hsaf : ∀ u, Event.statusUpdate u false ∉ ev1 := by
    rcases hev with h | h <;> subst h <;> simp
  have hupd : ∀ u b, Event.update u b ∉ ev1 := by
    rcases hev with h | h <;> subst h <;> simp
  have hprev : ∀ b, Event.preview b ∉ ev1 := by
    rcases hev with h | h <;> subst h <;> simp
  have happl : ∀ b, Event.apply b ∉ ev1 := by
    rcases hev with h | h <;> subst h <;> simp
  have htdv : ∀ b, Event.teardown b ∉ ev1 := by
    rcases hev with h | h <;> subst h <;> simp
  have hsr : ∀ b, Event.stackResolve b ∉ ev1 := by
    rcases hev with h | h <;> subst h <;> simp
  rcases hg : GetStack (toLowerStr o1.kind) o1.name o1.nspace
      env.stackUpsertOk env.stackConfigOk with _ | cfg
  · rw [reconcile_stack_err env o o1 ev1 hf hb hg]
    refine ⟨?_, ?_, ?_, ?_, ?_, ?_⟩
    · intro u hu
      simp at hu
      exact absurd hu (hsaf u)
    · intro u hu
      simp at hu
      exact absurd hu (hupd u false)
    · intro hu
      simp at hu
      exact absurd hu (hprev false)
    · intro hu
      simp at hu
      exact absurd hu (happl false)
    · intro _
      rfl
    · intro hu
      simp at hu
      exact absurd hu (htdv false)
  · rcases hdt : o1.deletionTimestamp with _ | d
    · rw [reconcile_active_eq env o o1 ev1 cfg hf hb hg hdt]
      obtain ⟨a1, a2, a3, a4, a5, a6, a7, a8, a9, a10⟩ :=
        active_facts env o1 (toLowerStr o1.kind ++ finalizerSuffix)
      refine ⟨?_, ?_, ?_, ?_, ?_, ?_⟩
      · intro u hu
        simp at hu
        rcases hu with hu | hu
        · exact absurd hu (hsaf u)
        · exact a1 u hu
      · intro u hu
        simp at hu
        rcases hu with hu | hu
        · exact absurd hu (hupd u false)
        · exact a2 u hu
      · intro hu
        simp at hu
        rcases hu with hu | hu
        · exact absurd hu (hprev false)
        · exact a3 hu
      · intro hu
        simp at hu
        rcases hu with hu | hu
        · exact absurd hu (happl false)
        · exact a4 hu
      · intro hu
        simp at hu
        rcases hu with hu | hu
        · exact absurd hu (hsr false)
        · exact absurd hu (a7 false)
      · intro hu
        simp at hu
        rcases hu with hu | hu
        · exact absurd hu (htdv false)
        · exact absurd hu (a6 false)
    · rw [reconcile_deletion_eq env o o1 ev1 cfg hf hb hg (by rw [hdt]; simp)]
      obtain ⟨d1, d2, d3, d4, d5, d6, d7, d8⟩ :=
        deletion_facts env o1 (toLowerStr o1.kind ++ finalizerSuffix)
      refine ⟨?_, ?_, ?_, ?_, ?_, ?_⟩
      · intro u hu
        simp at hu
        rcases hu with hu | hu
        · exact absurd hu (hsaf u)
        · exact d3 u hu
      · intro u hu
        simp at hu
        rcases hu with hu | hu
        · exact absurd hu (hupd u false)
        · exact (d2 u false hu).2.2.2 rfl
      · intro hu
        simp at hu
        rcases hu with hu | hu
        · exact absurd hu (hprev false)
        · exact absurd hu (d6 false)
      · intro hu
        simp at hu
        rcases hu with hu | hu
        · exact absurd hu (happl false)
        · exact absurd hu (d7 false)
      · intro hu
        simp at hu
        rcases hu with hu | hu
        · exact absurd hu (hsr false)
        · exact absurd hu (d8 false)
      · intro hu
        simp at hu
        rcases hu with hu | hu
        · exact absurd hu (htdv false)
        · rw [d4 hu]

/-- C3 (amended): for every pass, a failed status persist, a failed generic
    object update, a failed drift preview and a failed apply each end the
    pass with a non-nil error; but a failed stack resolution and a failed
    teardown end the pass with a nil error (the failure is only logged). -/
theorem failed_call_error_outcomes (env : Env) :
    (∀ u, Event.statusUpdate u false ∈ (Reconcile env).2.1 →
      (Reconcile env).1.err = true) ∧
    (∀ u, Event.update u false ∈ (Reconcile env).2.1 →
      (Reconcile env).1.err = true) ∧
    (Event.preview false ∈ (Reconcile env).2.1 → (Reconcile env).1.err = true) ∧
    (Event.apply false ∈ (Reconcile env).2.1 → (Reconcile env).1.err = true) ∧
    (Event.stackResolve false ∈ (Reconcile env).2.1 →
      (Reconcile env).1.err = false) ∧
    (Event.teardown false ∈ (Reconcile env).2.1 →
      (Reconcile env).1.err = false) := by
  rcases hfo : env.fetch with _ | _ | o
  · have he : Reconcile env = (⟨false, false⟩, [Event.get], none) := by
      unfold Reconcile
      rw [hfo]
    rw [he]
    simp
  · have he : Reconcile env = (⟨false, true⟩, [Event.get], none) := by
      unfold Reconcile
      rw [hfo]
    rw [he]
    simp
  · obtain ⟨o1, ev1, e1, hb, -, -, -, -, -, hshape⟩ := bootstrap_any env o
    rcases hshape with ⟨hev, he1⟩ | ⟨hev, he1⟩
    · subst hev
      subst he1
      exact C3_tail env o o1 [] hfo hb (Or.inl rfl)
    · cases hbp : env.bootstrapPersist with
      | false =>
        rw [hbp] at hev he1
        simp only [Bool.not_false] at he1
        subst hev
        subst he1
        rw [reconcile_bootstrap_err env o o1 _ hfo hb]
        simp
      | true =>
        rw [hbp] at hev he1
        simp only [Bool.not_true] at he1
        subst hev
        subst he1
        exact C3_tail env o o1 [Event.statusUpdate o1 true] hfo hb (Or.inr rfl)

/-- C3 counterexample: the claim that every failed backend call yields a
    non-nil error is false on the code.  On a pass whose stack resolution
    fails, and on a pass whose teardown (destroy) fails, Reconcile returns a
    nil error (controller.go lines 78 and 112 both return ctrl.Result{}, nil
    after logging the failure). -/
theorem backend_failure_nil_error_counterexample :
    Event.stackResolve false ∈ (Reconcile ⟨.found ⟨"b", "d", "bucket", none, [],
        [⟨"Ready", .ctrue, "Created", "m", 1⟩], []⟩, 5, true, false, true, true,
        true, true, true, true, none, true, none, true, true⟩).2.1 ∧
    (Reconcile ⟨.found ⟨"b", "d", "bucket", none, [],
        [⟨"Ready", .ctrue, "Created", "m", 1⟩], []⟩, 5, true, false, true, true,
        true, true, true, true, none, true, none, true, true⟩).1.err = false ∧
    Event.teardown false ∈ (Reconcile ⟨.found ⟨"b", "d", "bucket", some 1,
        ["bucket.cloud.acme.local/finalizer"],
        [⟨"Ready", .ctrue, "Created", "m", 1⟩], []⟩, 5, true, true, true, true,
        true, false, true, true, none, true, none, true, true⟩).2.1 ∧
    (Reconcile ⟨.found ⟨"b", "d", "bucket", some 1,
        ["bucket.cloud.acme.local/finalizer"],
        [⟨"Ready", .ctrue, "Created", "m", 1⟩], []⟩, 5, true, true, true, true,
        true, false, true, true, none, true, none, true, true⟩).1.err = false := by
  refine ⟨?_, ?_, ?_, ?_⟩ <;> decide

theorem failed_call_error_outcomes_witness :
    (Reconcile ⟨.found ⟨"b", "d", "bucket", none, [], [], []⟩, 5, false, true,
        true, true, true, true, true, true, none, true, none, true, true⟩).1.err
      = true ∧
    (Reconcile ⟨.found ⟨"b", "d", "bucket", none, [],
        [⟨"Ready", .ctrue, "Created", "m", 1⟩], []⟩, 5, true, false, true, true,
        true, true, true, true, none, true, none, true, true⟩).1.err = false :=
  ⟨(failed_call_error_outcomes ⟨.found ⟨"b", "d", "bucket", none, [], [], []⟩,
      5, false, true, true, true, true, true, true, true, none, true, none,
      true, true⟩).1
    ⟨"b", "d", "bucket", none, [],
      [⟨"Ready", .cfalse, "Reconciling", "Starting reconciliation", 5⟩], []⟩
    (by decide),
   (failed_call_error_outcomes ⟨.found ⟨"b", "d", "bucket", none, [],
      [⟨"Ready", .ctrue, "Created", "m", 1⟩], []⟩, 5, true, false, true, true,
      true, true, true, true, none, true, none, true, true⟩).2.2.2.2.1
    (by decide)⟩

/-- C4: a pass on an active object whose drift preview reports only OpSame
    operation kinds (also when the change summary is empty) ends successfully
    with no apply call, the trace ends at the preview call itself (so nothing
    is persisted after the drift decision), and for an object that already
    had conditions the conditions are left untouched. -/
theorem noop_preview_short_circuit (env : Env) (o : Obj) (ops : List OpKind)
    (hf : env.fetch = .found o)
    (hd : o.deletionTimestamp = none)
    (hp : env.previewRes = some ops)
    (hall : ops.any (fun op => op != OpKind.same) = false)
    (hbp : env.bootstrapPersist = true)
    (hs1 : env.stackUpsertOk = true) (hs2 : env.stackConfigOk = true)
    (hA : env.addFinUpdate = true) :
    (Reconcile env).1 = ⟨false, false⟩ ∧
    (∀ b, Event.apply b ∉ (Reconcile env).2.1) ∧
    (∃ pre, (Reconcile env).2.1 = pre ++ [Event.preview true]) ∧
    (∃ p, (Reconcile env).2.2 = some p ∧
      (o.conditions ≠ [] → p.conditions = o.conditions)) := by
  rcases bootstrap_cases env o with ⟨hne, hb⟩ | ⟨hnil, hb⟩
  · rcases hg : GetStack (toLowerStr o.kind) o.name o.nspace
        env.stackUpsertOk env.stackConfigOk with _ | cfg
    · rw [hs1, hs2] at hg
      simp [GetStack] at hg
    · rw [reconcile_active_eq env o o [] cfg hf hb hg hd]
      obtain ⟨a1, a2, a3, a4, a5, a6, a7, a8, a9, a10⟩ :=
        active_facts env o (toLowerStr o.kind ++ finalizerSuffix)
      by_cases hm : toLowerStr o.kind ++ finalizerSuffix ∈ o.finalizers
      · rw [(a9 ops hp hall).1 hm]
        refine ⟨rfl, by simp, ⟨[Event.get, Event.stackResolve true], by simp⟩,
          ⟨o, rfl, fun _ => rfl⟩⟩
      · rw [(a9 ops hp hall).2 hm hA]
        refine ⟨rfl, by simp, ⟨[Event.get, Event.stackResolve true,
          Event.update { o with finalizers := o.finalizers
            ++ [toLowerStr o.kind ++ finalizerSuffix] } true], by simp⟩,
          ⟨_, rfl, fun _ => rfl⟩⟩
  · rw [hbp] at hb
    simp only [Bool.not_true] at hb
    rcases hg : GetStack (toLowerStr o.kind) o.name o.nspace
        env.stackUpsertOk env.stackConfigOk with _ | cfg
    · rw [hs1, hs2] at hg
      simp [GetStack] at hg
    · rw [reconcile_active_eq env o
        { o with conditions := [⟨conditionTypeReady, .cfalse, "Reconciling",
            "Starting reconciliation", env.now⟩] }
        [Event.statusUpdate { o with conditions := [⟨conditionTypeReady, .cfalse,
            "Reconciling", "Starting reconciliation", env.now⟩] } true]
        cfg hf hb hg hd]
      obtain ⟨a1, a2, a3, a4, a5, a6, a7, a8, a9, a10⟩ :=
        active_facts env
          { o with conditions := [⟨conditionTypeReady, .cfalse, "Reconciling",
              "Starting reconciliation", env.now⟩] }
          (toLowerStr o.kind ++ finalizerSuffix)
      by_cases hm : toLowerStr o.kind ++ finalizerSuffix ∈ o.finalizers
      · rw [(a9 ops hp hall).1 hm]
        refine ⟨rfl, by simp, ⟨[Event.get, Event.statusUpdate
          { o with conditions := [⟨conditionTypeReady, .cfalse, "Reconciling",
              "Starting reconciliation", env.now⟩] } true,
          Event.stackResolve true], by simp⟩, ⟨_, rfl, fun hc => absurd hnil hc⟩⟩
      · rw [(a9 ops hp hall).2 hm hA]
        refine ⟨rfl, by simp, ⟨[Event.get, Event.statusUpdate
          { o with conditions := [⟨conditionTypeReady, .cfalse, "Reconciling",
              "Starting reconciliation", env.now⟩] } true,
          Event.stackResolve true, Event.update
          ⟨o.name, o.nspace, o.kind, o.deletionTimestamp,
           o.finalizers ++ [toLowerStr o.kind ++ finalizerSuffix],
           [⟨conditionTypeReady, .cfalse, "Reconciling",
              "Starting reconciliation", env.now⟩],
           o.statusPayload⟩ true], by simp⟩,
          ⟨_, rfl, fun hc => absurd hnil hc⟩⟩

theorem noop_preview_short_circuit_witness :
    (Reconcile ⟨.found ⟨"b", "d", "bucket", none, [],
        [⟨"Ready", .ctrue, "Created", "m", 1⟩], []⟩, 5, true, true, true, true,
        true, true, true, true, some [OpKind.same], true, none, true,
        true⟩).1 = ⟨false, false⟩ ∧
    (∀ b, Event.apply b ∉ (Reconcile ⟨.found ⟨"b", "d", "bucket", none, [],
        [⟨"Ready", .ctrue, "Created", "m", 1⟩], []⟩, 5, true, true, true, true,
        true, true, true, true, some [OpKind.same], true, none, true,
        true⟩).2.1) ∧
    (∃ pre, (Reconcile ⟨.found ⟨"b", "d", "bucket", none, [],
        [⟨"Ready", .ctrue, "Created", "m", 1⟩], []⟩, 5, true, true, true, true,
        true, true, true, true, some [OpKind.same], true, none, true,
        true⟩).2.1 = pre ++ [Event.preview true]) ∧
    (∃ p, (Reconcile ⟨.found ⟨"b", "d", "bucket", none, [],
        [⟨"Ready", .ctrue, "Created", "m", 1⟩], []⟩, 5, true, true, true, true,
        true, true, true, true, some [OpKind.same], true, none, true,
        true⟩).2.2 = some p ∧
      ((⟨"b", "d", "bucket", none, [],
        [⟨"Ready", .ctrue, "Created", "m", 1⟩], []⟩ : Obj).conditions ≠ [] →
        p.conditions = (⟨"b", "d", "bucket", none, [],
          [⟨"Ready", .ctrue, "Created", "m", 1⟩], []⟩ : Obj).conditions)) :=
  noop_preview_short_circuit
    ⟨.found ⟨"b", "d", "bucket", none, [],
      [⟨"Ready", .ctrue, "Created", "m", 1⟩], []⟩, 5, true, true, true, true,
      true, true, true, true, some [OpKind.same], true, none, true, true⟩
    ⟨"b", "d", "bucket", none, [], [⟨"Ready", .ctrue, "Created", "m", 1⟩], []⟩
    [OpKind.same] rfl rfl rfl (by decide) rfl rfl rfl rfl

/-- C10: on a pass over an active object that entered with an empty
    conditions slice, when the pass reaches the apply call, exactly one
    status persist (the bootstrap write) precedes the apply: the
    mark-reconciling step writes a condition identical to the bootstrap one
    (False, Reconciling, Starting reconciliation), so SetStatusCondition
    reports no change and no second persistence call happens before apply. -/
theorem mark_reconciling_noop_after_bootstrap (env : Env) (o : Obj)
    (ops : List OpKind)
    (hf : env.fetch = .found o)
    (hd : o.deletionTimestamp = none)
    (hnil : o.conditions = [])
    (hbp : env.bootstrapPersist = true)
    (hs1 : env.stackUpsertOk = true) (hs2 : env.stackConfigOk = true)
    (hA : env.addFinUpdate = true)
    (hp : env.previewRes = some ops)
    (hch : ops.any (fun op => op != OpKind.same) = true) :
    ∃ pre b post, (Reconcile env).2.1 = pre ++ Event.apply b :: post ∧
      countStatusUpdates pre = 1 := by
  rcases bootstrap_cases env o with ⟨hne, -⟩ | ⟨-, hb⟩
  · exact absurd hnil hne
  · rw [hbp] at hb
    simp only [Bool.not_true] at hb
    rcases hg : GetStack (toLowerStr o.kind) o.name o.nspace
        env.stackUpsertOk env.stackConfigOk with _ | cfg
    · rw [hs1, hs2] at hg
      simp [GetStack] at hg
    · rw [reconcile_active_eq env o
        { o with conditions := [⟨conditionTypeReady, .cfalse, "Reconciling",
            "Starting reconciliation", env.now⟩] }
        [Event.statusUpdate { o with conditions := [⟨conditionTypeReady, .cfalse,
            "Reconciling", "Starting reconciliation", env.now⟩] } true]
        cfg hf hb hg hd]
      obtain ⟨a1, a2, a3, a4, a5, a6, a7, a8, a9, a10⟩ :=
        active_facts env
          { o with conditions := [⟨conditionTypeReady, .cfalse, "Reconciling",
              "Starting reconciliation", env.now⟩] }
          (toLowerStr o.kind ++ finalizerSuffix)
      have hrm : readyMatches
          { o with conditions := [⟨conditionTypeReady, .cfalse, "Reconciling",
              "Starting reconciliation", env.now⟩] }
          .cfalse "Reconciling" "Starting reconciliation" = true := by
        unfold readyMatches
        rw [show FindStatusCondition
            ({ o with conditions := [⟨conditionTypeReady, .cfalse, "Reconciling",
              "Starting reconciliation", env.now⟩] } : Obj).conditions
            conditionTypeReady =
            some ⟨conditionTypeReady, .cfalse, "Reconciling",
              "Starting reconciliation", env.now⟩ from
          find_cond_cons_pos _ [] conditionTypeReady rfl]
        simp
      obtain ⟨pre, b, post, htr, hcnt⟩ := a10 hrm (fun _ => hA) ops hp hch
      refine ⟨[Event.get, Event.statusUpdate
        { o with conditions := [⟨conditionTypeReady, .cfalse, "Reconciling",
            "Starting reconciliation", env.now⟩] } true,
        Event.stackResolve true] ++ pre, b, post, ?_, ?_⟩
      · rw [htr]
        simp
      · simp only [countStatusUpdates, List.filter_append,
          List.length_append] at hcnt ⊢
        simp [isStatusUpdate, hcnt]

theorem mark_reconciling_noop_after_bootstrap_witness :
    ∃ pre b post,
      (Reconcile ⟨.found ⟨"b", "d", "bucket", none, [], [], []⟩, 5, true, true,
        true, true, true, true, true, true, some [OpKind.create], true,
        some [("arn", "x")], true, true⟩).2.1 = pre ++ Event.apply b :: post ∧
      countStatusUpdates pre = 1 :=
  mark_reconciling_noop_after_bootstrap
    ⟨.found ⟨"b", "d", "bucket", none, [], [], []⟩, 5, true, true, true, true,
      true, true, true, true, some [OpKind.create], true, some [("arn", "x")],
      true, true⟩
    ⟨"b", "d", "bucket", none, [], [], []⟩ [OpKind.create]
    rfl rfl rfl rfl rfl rfl rfl rfl (by decide)

/-- C7 (amended): the bootstrap guard of Reconcile tests emptiness of the
    whole conditions slice, not absence of a Ready condition: a fetched
    object with an empty conditions slice has the Ready condition set to
    False/Reconciling/Starting reconciliation and persisted as the second
    event of the pass, before stack resolution and before the branch on the
    deletion timestamp; a fetched object with any non-empty conditions slice
    is not re-bootstrapped — its second event is directly the stack
    resolution. -/
theorem bootstrap_on_empty_conditions (env : Env) (o : Obj)
    (hf : env.fetch = .found o) :
    (o.conditions = [] →
      ∃ p tl, (Reconcile env).2.1 =
          Event.get :: Event.statusUpdate p env.bootstrapPersist :: tl ∧
        FindStatusCondition p.conditions conditionTypeReady =
          some ⟨conditionTypeReady, .cfalse, "Reconciling",
            "Starting reconciliation", env.now⟩) ∧
    (o.conditions ≠ [] →
      ∃ b tl, (Reconcile env).2.1 = Event.get :: Event.stackResolve b :: tl) := by
  rcases bootstrap_cases env o with ⟨hne, hb⟩ | ⟨hnil, hb⟩
  · refine ⟨fun hc => absurd hc hne, fun _ => ?_⟩
    rcases hg : GetStack (toLowerStr o.kind) o.name o.nspace
        env.stackUpsertOk env.stackConfigOk with _ | cfg
    · rw [reconcile_stack_err env o o [] hf hb hg]
      exact ⟨false, [], by simp⟩
    · rcases hdt : o.deletionTimestamp with _ | d
      · rw [reconcile_active_eq env o o [] cfg hf hb hg hdt]
        exact ⟨true, (reconcileActive env o
          (toLowerStr o.kind ++ finalizerSuffix)).2.1, by simp⟩
      · rw [reconcile_deletion_eq env o o [] cfg hf hb hg (by rw [hdt]; simp)]
        exact ⟨true, (reconcileDeletion env o
          (toLowerStr o.kind ++ finalizerSuffix)).2.1, by simp⟩
  · refine ⟨fun _ => ?_, fun hne => absurd hnil hne⟩
    have hfind : FindStatusCondition
        ({ o with conditions := [⟨conditionTypeReady, .cfalse, "Reconciling",
            "Starting reconciliation", env.now⟩] } : Obj).conditions
        conditionTypeReady =
        some ⟨conditionTypeReady, .cfalse, "Reconciling",
          "Starting reconciliation", env.now⟩ :=
      find_cond_cons_pos _ [] conditionTypeReady rfl
    cases hbp : env.bootstrapPersist with
    | false =>
      rw [hbp] at hb
      simp only [Bool.not_false] at hb
      rw [reconcile_bootstrap_err env o _ _ hf hb]
      exact ⟨_, [], rfl, hfind⟩
    | true =>
      rw [hbp] at hb
      simp only [Bool.not_true] at hb
      rcases hg : GetStack (toLowerStr o.kind) o.name o.nspace
          env.stackUpsertOk env.stackConfigOk with _ | cfg
      · rw [reconcile_stack_err env o _ _ hf hb hg]
        exact ⟨_, [Event.stackResolve false], by simp, hfind⟩
      · rcases hdt : o.deletionTimestamp with _ | d
        · rw [reconcile_active_eq env o _ _ cfg hf hb hg hdt]
          refine ⟨_, Event.stackResolve true :: (reconcileActive env
            { o with conditions := [⟨conditionTypeReady, .cfalse, "Reconciling",
              "Starting reconciliation", env.now⟩] }
            (toLowerStr o.kind ++ finalizerSuffix)).2.1, by simp, hfind⟩
        · rw [reconcile_deletion_eq env o _ _ cfg hf hb hg (by rw [hdt]; simp)]
          refine ⟨_, Event.stackResolve true :: (reconcileDeletion env
            { o with conditions := [⟨conditionTypeReady, .cfalse, "Reconciling",
              "Starting reconciliation", env.now⟩] }
            (toLowerStr o.kind ++ finalizerSuffix)).2.1, by simp, hfind⟩

theorem bootstrap_on_empty_conditions_witness :
    (∃ p tl, (Reconcile ⟨.found ⟨"b", "d", "bucket", none, [], [], []⟩, 5, true,
        true, true, true, true, true, true, true, some [OpKind.same], true,
        none, true, true⟩).2.1 =
        Event.get :: Event.statusUpdate p true :: tl ∧
      FindStatusCondition p.conditions conditionTypeReady =
        some ⟨conditionTypeReady, .cfalse, "Reconciling",
          "Starting reconciliation", 5⟩) ∧
    (∃ b tl, (Reconcile ⟨.found ⟨"b", "d", "bucket", none, [],
        [⟨"Synced", .ctrue, "r", "m", 1⟩], []⟩, 5, true, true, true, true, true,
        true, true, true, some [OpKind.same], true, none, true, true⟩).2.1 =
        Event.get :: Event.stackResolve b :: tl) :=
  ⟨(bootstrap_on_empty_conditions ⟨.found ⟨"b", "d", "bucket", none, [], [], []⟩,
      5, true, true, true, true, true, true, true, true, some [OpKind.same],
      true, none, true, true⟩ ⟨"b", "d", "bucket", none, [], [], []⟩ rfl).1 rfl,
   (bootstrap_on_empty_conditions ⟨.found ⟨"b", "d", "bucket", none, [],
      [⟨"Synced", .ctrue, "r", "m", 1⟩], []⟩, 5, true, true, true, true, true,
      true, true, true, some [OpKind.same], true, none, true, true⟩
    ⟨"b", "d", "bucket", none, [], [⟨"Synced", .ctrue, "r", "m", 1⟩], []⟩
    rfl).2 (by decide)⟩

/-- C7 counterexample: the claim that every fetched object with no readiness
    condition is bootstrapped is false on the code.  An object carrying one
    condition of another type (Synced) and no Ready condition skips the
    bootstrap entirely: the pass performs zero status persists and ends with
    the object still lacking a Ready condition. -/
theorem bootstrap_guard_counterexample :
    FindStatusCondition ([⟨"Synced", .ctrue, "r", "m", 1⟩] : List Condition)
      conditionTypeReady = none ∧
    countStatusUpdates (Reconcile ⟨.found ⟨"b", "d", "bucket", some 1, [],
      [⟨"Synced", .ctrue, "r", "m", 1⟩], []⟩, 5, true, true, true, true, true,
      true, true, true, none, true, none, true, true⟩).2.1 = 0 ∧
    (Reconcile ⟨.found ⟨"b", "d", "bucket", some 1, [],
      [⟨"Synced", .ctrue, "r", "m", 1⟩], []⟩, 5, true, true, true, true, true,
      true, true, true, none, true, none, true, true⟩).2.2 =
      some ⟨"b", "d", "bucket", some 1, [],
        [⟨"Synced", .ctrue, "r", "m", 1⟩], []⟩ := by
  refine ⟨?_, ?_, ?_⟩ <;> decide

theorem single_fetch_tail (env : Env) (o o1 : Obj) (ev1 : List Event)
    (hf : env.fetch = .found o)
    (hb : bootstrapStep env o = (o1, ev1, false))
    (hg1 : Event.get ∉ ev1) :
    ∃ tl, (Reconcile env).2.1 = Event.get :: tl ∧ Event.get ∉ tl := by
  rcases hg : GetStack (toLowerStr o1.kind) o1.name o1.nspace
      env.stackUpsertOk env.stackConfigOk with _ | cfg
  · rw [reconcile_stack_err env o o1 ev1 hf hb hg]
    refine ⟨_, rfl, ?_⟩
    intro hmem
    simp at hmem
    exact hg1 hmem
  · rcases hdt : o1.deletionTimestamp with _ | d
    · rw [reconcile_active_eq env o o1 ev1 cfg hf hb hg hdt]
      obtain ⟨-, -, -, -, a5, -⟩ :=
        active_facts env o1 (toLowerStr o1.kind ++ finalizerSuffix)
      refine ⟨_, rfl, ?_⟩
      intro hmem
      simp at hmem
      rcases hmem with h | h
      · exact hg1 h
      · exact a5 h
    · rw [reconcile_deletion_eq env o o1 ev1 cfg hf hb hg (by rw [hdt]; simp)]
      obtain ⟨-, -, -, -, d5, -⟩ :=
        deletion_facts env o1 (toLowerStr o1.kind ++ finalizerSuffix)
      refine ⟨_, rfl, ?_⟩
      intro hmem
      simp at hmem
      rcases hmem with h | h
      · exact hg1 h
      · exact d5 h

/-- C8 (amended): the engine fetches the object exactly once per pass, as
    the very first event, and never again: in particular it does not
    re-fetch between a status write and the next status mutation (the source
    follows the non-re-fetching variant of the reconciliation sequence). -/
theorem single_fetch_no_refetch (env : Env) :
    ∃ tl, (Reconcile env).2.1 = Event.get :: tl ∧ Event.get ∉ tl := by
  rcases hfo : env.fetch with _ | _ | o
  · have he : Reconcile env = (⟨false, false⟩, [Event.get], none) := by
      unfold Reconcile
      rw [hfo]
    rw [he]
    exact ⟨[], rfl, by simp⟩
  · have he : Reconcile env = (⟨false, true⟩, [Event.get], none) := by
      unfold Reconcile
      rw [hfo]
    rw [he]
    exact ⟨[], rfl, by simp⟩
  · obtain ⟨o1, ev1, e1, hb, -, -, -, -, -, hshape⟩ := bootstrap_any env o
    have hev1 : ev1 = [] ∨ ev1 = [Event.statusUpdate o1 env.bootstrapPersist] := by
      rcases hshape with ⟨h1, -⟩ | ⟨h1, -⟩
      · exact Or.inl h1
      · exact Or.inr h1
    have hg1 : Event.get ∉ ev1 := by
      rcases hev1 with h1 | h1 <;> subst h1 <;> simp
    rcases hshape with ⟨hev, he1⟩ | ⟨hev, he1⟩
    · subst hev
      subst he1
      exact single_fetch_tail env o o1 [] hfo hb (by simp)
    · cases hbp : env.bootstrapPersist with
      | false =>
        rw [hbp] at hev he1
        simp only [Bool.not_false] at he1
        subst hev
        subst he1
        rw [reconcile_bootstrap_err env o o1 _ hfo hb]
        exact ⟨_, rfl, by simp⟩
      | true =>
        rw [hbp] at hev he1
        simp only [Bool.not_true] at he1
        subst hev
        subst he1
        exact single_fetch_tail env o o1 [Event.statusUpdate o1 true] hfo hb
          (by simp)

/-- C8 counterexample: the claim that the engine re-fetches after every
    status write it later builds on is false on the code.  On a fully
    successful create pass the trace contains three status persists but a
    single fetch, which is the first event — no re-fetch happens between
    the consecutive status writes. -/
theorem no_refetch_counterexample :
    countStatusUpdates (Reconcile ⟨.found ⟨"b", "d", "bucket", none, [], [], []⟩,
      5, true, true, true, true, true, true, true, true, some [OpKind.create],
      true, some [("arn", "x")], true, true⟩).2.1 = 3 ∧
    ((Reconcile ⟨.found ⟨"b", "d", "bucket", none, [], [], []⟩,
      5, true, true, true, true, true, true, true, true, some [OpKind.create],
      true, some [("arn", "x")], true, true⟩).2.1.filter isGet).length = 1 ∧
    ((Reconcile ⟨.found ⟨"b", "d", "bucket", none, [], [], []⟩,
      5, true, true, true, true, true, true, true, true, some [OpKind.create],
      true, some [("arn", "x")], true, true⟩).2.1).head? = some Event.get := by
  refine ⟨?_, ?_, ?_⟩ <;> decide

end Acme
